import Mathlib

/-! bauble: battery indicator and balance checker

A shallow embedding of the two command-line tools of the repository:

* `cmd/battary-indicator.go`: `parseBatteryData`, `getBatteryColor`;
* `cmd/yarurf-balance-checker/yarurf-balance-checker.go`: `Config.IsNotifyTime`, `printBalance`.

Go strings are modelled by their sequence of characters (`List Char`), which is what the
library functions see on valid UTF-8 text.  The Go library functions the code calls
(`strings.Split`, `strings.TrimSpace`, `strings.Contains`, `strings.Fields`, `strconv.Atoi`)
are modelled after their documented behaviour.
-/

namespace Bauble

/-! ## Go library functions used by the parser -/

/-- Go `unicode.IsSpace`: the characters with the Unicode White_Space property. -/
def isSpace (c : Char) : Bool :=
  let n := c.toNat
  (0x09 ≤ n && n ≤ 0x0D) || n == 0x20 || n == 0x85 || n == 0xA0 || n == 0x1680 ||
    (0x2000 ≤ n && n ≤ 0x200A) || n == 0x2028 || n == 0x2029 || n == 0x202F ||
    n == 0x205F || n == 0x3000

/-- Go `strings.Split(s, "\n")`: the pieces of `s` between line feeds; always at least one
piece. -/
def Split : List Char → List (List Char)
  | [] => [[]]
  | c :: s =>
    if c = '\n' then [] :: Split s
    else
      match Split s with
      | [] => [[c]]
      | l :: ls => (c :: l) :: ls

/-- Go `strings.TrimSpace`: leading and trailing white space removed. -/
def TrimSpace (s : List Char) : List Char :=
  (((s.dropWhile isSpace).reverse).dropWhile isSpace).reverse

/-- Go `strings.Contains(s, substr)`: `substr` occurs somewhere within `s`. -/
def Contains : List Char → List Char → Bool
  | [], sub => sub.isEmpty
  | c :: s, sub => sub.isPrefixOf (c :: s) || Contains s sub

/-- Go `strings.Fields`: the maximal runs of non-space characters of `s`, in order. -/
def Fields : List Char → List (List Char)
  | [] => []
  | c :: s =>
    if isSpace c then Fields s
    else
      match s with
      | [] => [[c]]
      | d :: _ =>
        if isSpace d then [c] :: Fields s
        else
          match Fields s with
          | [] => [[c]]
          | f :: fs => (c :: f) :: fs

/-- Value of a string of decimal digits, most significant first, continuing from `acc`;
`none` when a character is not a digit `0`..`9`. -/
def parseDigits : List Char → Nat → Option Nat
  | [], acc => some acc
  | c :: s, acc =>
    if 48 ≤ c.toNat ∧ c.toNat ≤ 57 then parseDigits s (acc * 10 + (c.toNat - 48)) else none

/-- Go `strconv.Atoi` with a 64-bit `int`: an optional sign `+` or `-` followed by at least
one decimal digit, the value within `[-2^63, 2^63)`; `none` stands for a non-nil error
(syntax or range). -/
def Atoi (s : List Char) : Option Int :=
  let go (neg : Bool) (ds : List Char) : Option Int :=
    match ds with
    | [] => none
    | _ :: _ =>
      match parseDigits ds 0 with
      | none => none
      | some n =>
        if neg then (if n ≤ 2 ^ 63 then some (-(n : Int)) else none)
        else (if n < 2 ^ 63 then some (n : Int) else none)
  match s with
  | '+' :: r => go false r
  | '-' :: r => go true r
  | _ => go false s

/-! ## battary-indicator.go -/

/-- The record `BatteryInfo`. -/
structure BatteryInfo where
  Level : Int := 0
  Status : String := ""
  ACPowered : Bool := false
  USBPowered : Bool := false
  deriving DecidableEq, Repr

def ColorDarkGreen : String := "\x1b[32m"
def ColorLightGreen : String := "\x1b[92m"
def ColorYellow : String := "\x1b[33m"
def ColorRed : String := "\x1b[31m"

def ColorGenmonDarkGreen : String := "#006400"
def ColorGenmonLightGreen : String := "#32CD32"
def ColorGenmonYellow : String := "#FFD700"
def ColorGenmonRed : String := "#FF0000"

/-- The inner `switch statusCode` of `parseBatteryData`. -/
def statusName (statusCode : Int) : String :=
  if statusCode = 2 then "Charging"
  else if statusCode = 3 then "Discharging"
  else if statusCode = 4 then "Not charging"
  else if statusCode = 5 then "Full"
  else "Unknown"

/-- The body of the `for _, line := range lines` loop of `parseBatteryData`: the effect of one
line on the record under construction.  `Except.error tok` is the early
`return nil, fmt.Errorf(...)`, with the token that `strconv.Atoi` rejected. -/
def processLine (info : BatteryInfo) (raw : List Char) : Except (List Char) BatteryInfo :=
  let line := TrimSpace raw
  if Contains line "level:".toList then
    match Fields line with
    | _ :: tok :: _ =>
      match Atoi tok with
      | none => .error tok
      | some level => .ok { info with Level := level }
    | _ => .ok info
  else if Contains line "AC powered:".toList then
    match Fields line with
    | _ :: tok :: _ => .ok { info with ACPowered := decide (tok = "true".toList) }
    | _ => .ok info
  else if Contains line "USB powered:".toList then
    match Fields line with
    | _ :: tok :: _ => .ok { info with USBPowered := decide (tok = "true".toList) }
    | _ => .ok info
  else if Contains line "status:".toList then
    match Fields line with
    | _ :: tok :: _ =>
      match Atoi tok with
      | some statusCode => .ok { info with Status := statusName statusCode }
      | none => .ok info
    | _ => .ok info
  else .ok info

/-- The loop of `parseBatteryData` over the lines, from the record `info`. -/
def parseLines : BatteryInfo → List (List Char) → Except (List Char) BatteryInfo
  | info, [] => .ok info
  | info, l :: ls =>
    match processLine info l with
    | .error e => .error e
    | .ok info' => parseLines info' ls

/-- The function `parseBatteryData`. -/
def parseBatteryData (output : String) : Except (List Char) BatteryInfo :=
  parseLines {} (Split output.toList)

/-- The function `getBatteryColor`. -/
def getBatteryColor (info : BatteryInfo) (outputMode : String) : String :=
  if info.Status = "Charging" ∨ info.ACPowered = true ∨ info.USBPowered = true then
    if outputMode = "genmon" then ColorGenmonDarkGreen else ColorDarkGreen
  else if info.Level ≥ 80 then
    if outputMode = "genmon" then ColorGenmonLightGreen else ColorLightGreen
  else if info.Level ≥ 20 then
    if outputMode = "genmon" then ColorGenmonYellow else ColorYellow
  else
    if outputMode = "genmon" then ColorGenmonRed else ColorRed

/-! ## yarurf-balance-checker.go

A `float64` is modelled by the value it denotes: a rational number when finite (the two zeros
are not told apart), an infinity, or NaN.  Its division is the IEEE 754 binary64 division: the
exact quotient rounded to the nearest binary64 number, ties to even.  Go's `int` is the 64-bit
integer: the wrap-around of `+` and the range of the conversion `int(f)` are made explicit. -/

/-- Rounding to the nearest integer, ties to the even one. -/
def roundHalfEven (y : ℚ) : Int :=
  let f := ⌊y⌋
  if y - f < 1 / 2 then f
  else if 1 / 2 < y - f then f + 1
  else if f % 2 = 0 then f
  else f + 1

/-- The exponent of the unit in the last place of the binary64 numbers around `x ≠ 0`: 52 below
the exponent of the binade of `x`, and -1074 for the subnormal numbers. -/
def ulpExp (x : ℚ) : Int := max (Int.log 2 |x|) (-1022) - 52

/-- The multiple of the unit in the last place nearest to `x`, ties to even: binary64 rounding
before the check for overflow. -/
def roundToUlp (x : ℚ) : ℚ := (roundHalfEven (x / 2 ^ ulpExp x) : ℚ) * 2 ^ ulpExp x

/-- IEEE 754 binary64 rounding of the real number `x` to nearest, ties to even: the finite
result, or `none` when the result overflows to an infinity. -/
def round64 (x : ℚ) : Option ℚ :=
  if x = 0 then some 0
  else if |roundToUlp x| < 2 ^ 1024 then some (roundToUlp x)
  else none

/-- A value of the Go type `float64`. -/
inductive Float64 where
  | finite (q : ℚ)
  | inf (negative : Bool)
  | nan
  deriving DecidableEq

/-- The `float64` quotient `x / y` when it is finite; `none` when it is an infinity or NaN
(division by zero, overflow, an infinite or NaN operand). -/
def Float64.quotient : Float64 → Float64 → Option ℚ
  | .finite x, .finite y => if y = 0 then none else round64 (x / y)
  | .finite _, .inf _ => some 0
  | _, _ => none

/-- The integer part of `x`: the fractional part discarded (truncation toward zero). -/
def integerPart (x : ℚ) : Int := Int.tdiv x.num x.den

/-- Go's conversion `int(f)` of a finite `float64` `f`: the integer part of `f` when the 64-bit
`int` can represent it; otherwise (`none`) Go leaves the result to the implementation. -/
def toInt (f : ℚ) : Option Int :=
  if -2 ^ 63 ≤ integerPart f ∧ integerPart f < 2 ^ 63 then some (integerPart f) else none

/-- The `Templates` field of `Config`. -/
structure Templates where
  HighBalance : String
  LowBalance : String
  deriving DecidableEq, Repr

/-- The `Notify.Time` field of `Config`. -/
structure NotifyTime where
  Hour : Int
  Minute : Int
  deriving DecidableEq, Repr

/-- The `Notify` field of `Config`. -/
structure Notify where
  TelegramToken : String
  TelegramChat : List Int
  Time : NotifyTime
  deriving DecidableEq, Repr

/-- The record `Config` (the fields `printBalance` and `IsNotifyTime` read). -/
structure Config where
  Templates : Templates
  Cost : Float64
  Notify : Notify

/-- The reading of `time.Now()` that `IsNotifyTime` uses: `now.Hour()` and `now.Minute()`. -/
structure Clock where
  Hour : Int
  Minute : Int
  deriving DecidableEq, Repr

/-- Two's-complement wrap-around of a 64-bit Go `int`. -/
def wrapInt (x : Int) : Int := (x + 2 ^ 63) % 2 ^ 64 - 2 ^ 63

/-- The method `(c *Config) IsNotifyTime`, the clock reading `time.Now()` made an argument. -/
def Config.IsNotifyTime (c : Config) (now : Clock) : Bool :=
  let currentHour := now.Hour
  let currentMinute := now.Minute
  if currentHour ≠ c.Notify.Time.Hour then false
  else
    decide (currentMinute ≥ c.Notify.Time.Minute) &&
      decide (currentMinute < wrapInt (c.Notify.Time.Minute + 60))

/-- The local `daysLeft := int(balance / config.Cost)` of `printBalance`.  When the quotient
is not finite or its integer part does not fit `int`, Go leaves the result of the conversion to
the implementation: `conv balance cost` stands for that result. -/
def daysLeft (conv : Float64 → Float64 → Int) (balance cost : Float64) : Int :=
  match (balance.quotient cost).bind toInt with
  | some d => d
  | none => conv balance cost

/-- The local `urgency` of `printBalance`, from `daysLeft`. -/
def urgency (daysLeft : Int) : String :=
  if daysLeft ≤ 1 then "🔴 СРОЧНО"
  else if daysLeft ≤ 3 then "🟠 СРОЧНО"
  else "🟡 ВНИМАНИЕ"

/-- The arguments of the `fmt.Sprintf` call that builds `message` in `printBalance`, in order
(`currentBalance` is itself `balance` rendered with two decimals); the rendering into text is
not modelled. -/
structure Message where
  urgency : String
  currentBalance : Float64
  daysLeft : Int
  balance : Float64
  cost : Float64
  daysLeftAgain : Int

/-- One call `SendTelegramMessage(token, chatID, message, parseMode)`. -/
structure Send where
  token : String
  chatID : Int
  message : Message
  parseMode : String

/-- What one run of `printBalance` does: the calls of `SendTelegramMessage` it makes, in order,
and the final `fmt.Printf(template+"\n", balance)`. -/
structure Effects where
  sends : List Send
  template : String
  printed : Float64

/-- The function `printBalance`. -/
def printBalance (conv : Float64 → Float64 → Int) (balance : Float64) (config : Config)
    (now : Clock) : Effects :=
  let daysLeft := daysLeft conv balance config.Cost
  let urgency := urgency daysLeft
  if daysLeft > 3 then
    { sends := [], template := config.Templates.HighBalance, printed := balance }
  else
    let sends : List Send :=
      if config.IsNotifyTime now then
        let message : Message :=
          { urgency := urgency, currentBalance := balance, daysLeft := daysLeft,
            balance := balance, cost := config.Cost, daysLeftAgain := daysLeft }
        config.Notify.TelegramChat.map fun chat =>
          { token := config.Notify.TelegramToken, chatID := chat, message := message,
            parseMode := "" }
      else []
    { sends := sends, template := config.Templates.LowBalance, printed := balance }

/-! ## Vocabulary of the statements -/

/-- The Charging colour (dark green) in the given output mode. -/
def chargingColor (outputMode : String) : String :=
  if outputMode = "genmon" then ColorGenmonDarkGreen else ColorDarkGreen

/-- The High colour (light green) in the given output mode. -/
def highColor (outputMode : String) : String :=
  if outputMode = "genmon" then ColorGenmonLightGreen else ColorLightGreen

/-- The Medium colour (yellow) in the given output mode. -/
def mediumColor (outputMode : String) : String :=
  if outputMode = "genmon" then ColorGenmonYellow else ColorYellow

/-- The Low colour (red) in the given output mode. -/
def lowColor (outputMode : String) : String :=
  if outputMode = "genmon" then ColorGenmonRed else ColorRed

/-- The urgency label of the Urgent tier. -/
def urgentLabel : String := "🔴 СРОЧНО"

/-- The urgency label of the Warning tier. -/
def warningLabel : String := "🟠 СРОЧНО"

/-- The urgency label of the Healthy tier. -/
def healthyLabel : String := "🟡 ВНИМАНИЕ"

/-- A value fits a 64-bit Go `int`. -/
def isInt64 (x : Int) : Prop := -2 ^ 63 ≤ x ∧ x < 2 ^ 63

/-- The comparison `f >= 0` of Go on a `float64`. -/
def Float64.isNonneg : Float64 → Prop
  | .finite q => 0 ≤ q
  | .inf negative => negative = false
  | .nan => False

/-- The comparison `f > 0` of Go on a `float64`. -/
def Float64.isPos : Float64 → Prop
  | .finite q => 0 < q
  | .inf negative => negative = false
  | .nan => False

/-- The comparison `f <= 0` of Go on a `float64`. -/
def Float64.isNonpos : Float64 → Prop
  | .finite q => q ≤ 0
  | .inf negative => negative = true
  | .nan => False

/-- The conversion on amd64 of a `float64` that `int` cannot represent: the processor returns
the least 64-bit integer for every such value. -/
def convAmd64 : Float64 → Float64 → Int := fun _ _ => -2 ^ 63

/-- The `float64` nearest to the decimal 2.55. -/
def f2_55 : Float64 := .finite (2871044762448691 / 2 ^ 50)

/-- The `float64` nearest to the decimal 0.85. -/
def f0_85 : Float64 := .finite (7656119366529843 / 2 ^ 53)

/-- The `float64` nearest to the decimal -0.85. -/
def fNeg0_85 : Float64 := .finite (-(7656119366529843 / 2 ^ 53))

/-- A configuration with the given daily cost, chat ids and notification time, used for the
concrete instances. -/
def sampleConfig (cost : Float64) (chats : List Int) (hour minute : Int) : Config :=
  { Templates := { HighBalance := "Баланс: %.2f руб.", LowBalance := "Низкий баланс: %.2f руб." },
    Cost := cost,
    Notify := { TelegramToken := "token", TelegramChat := chats,
                Time := { Hour := hour, Minute := minute } } }

/-- The four keys `parseBatteryData` looks for. -/
inductive Key where
  | level
  | acPowered
  | usbPowered
  | status
  deriving DecidableEq, Repr

/-- The text of a key, as the `switch` of `parseBatteryData` searches it. -/
def Key.text : Key → List Char
  | .level => "level:".toList
  | .acPowered => "AC powered:".toList
  | .usbPowered => "USB powered:".toList
  | .status => "status:".toList

/-- The line carries the key: the key's text occurs in it. -/
def carries (k : Key) (line : List Char) : Bool := Contains line k.text

/-- The key whose `case` of the `switch` handles the line: the first key, in the order of the
cases, that the line carries. -/
def handledAs (line : List Char) : Option Key :=
  if carries .level line then some .level
  else if carries .acPowered line then some .acPowered
  else if carries .usbPowered line then some .usbPowered
  else if carries .status line then some .status
  else none

/-- The value token of a line: its second white-space-delimited token, `parts[1]`. -/
def valueToken (line : List Char) : Option (List Char) := (Fields line)[1]?

/-- The line assigns the field of key `k`: the case of `k` handles it, it has a value token
and, for the status, that token parses as an integer. -/
def assigns (k : Key) (line : List Char) : Bool :=
  decide (handledAs line = some k) &&
    match valueToken line with
    | some tok => decide (k ≠ .status) || (Atoi tok).isSome
    | none => false

/-- Two records agree on the field of key `k`. -/
def sameField (k : Key) (a b : BatteryInfo) : Prop :=
  match k with
  | .level => a.Level = b.Level
  | .acPowered => a.ACPowered = b.ACPowered
  | .usbPowered => a.USBPowered = b.USBPowered
  | .status => a.Status = b.Status

/-! ## The library functions -/

theorem contains_iff_occurs (s sub : List Char) : Contains s sub = true ↔ sub <:+: s := by
  induction s with
  | nil => cases sub <;> simp [Contains]
  | cons c s ih =>
    rw [Contains, Bool.or_eq_true, ih, List.infix_cons_iff, List.isPrefixOf_iff_prefix]

theorem contains_eq_false_iff (s sub : List Char) : Contains s sub = false ↔ ¬ sub <:+: s := by
  rw [← contains_iff_occurs, Bool.not_eq_true]

/-- A pattern that starts with a non-space character occurs in `s` iff it occurs in `s`
without its leading white space. -/
theorem infix_dropWhile_isSpace (h : Char) (t s : List Char) (hh : isSpace h = false) :
    (h :: t) <:+: s.dropWhile isSpace ↔ (h :: t) <:+: s := by
  induction s with
  | nil => simp
  | cons c s ih =>
    rw [List.dropWhile_cons]
    by_cases hc : isSpace c = true
    · rw [if_pos hc, ih, List.infix_cons_iff]
      constructor
      · exact Or.inr
      · rintro (hp | hi)
        · rw [List.cons_prefix_cons] at hp
          rw [hp.1, hc] at hh
          exact absurd hh (by decide)
        · exact hi
    · rw [if_neg hc]

/-- A pattern that starts and ends with a non-space character occurs in the trimmed text iff
it occurs in the text. -/
theorem contains_trimSpace (s sub : List Char) (h e : Char) (t t' : List Char)
    (hsub : sub = h :: t) (hrev : sub.reverse = e :: t')
    (hh : isSpace h = false) (he : isSpace e = false) :
    Contains (TrimSpace s) sub = Contains s sub := by
  rw [Bool.eq_iff_iff, contains_iff_occurs, contains_iff_occurs]
  unfold TrimSpace
  rw [← List.reverse_infix, List.reverse_reverse, hrev, infix_dropWhile_isSpace e t' _ he,
    ← hrev, List.reverse_infix, hsub, infix_dropWhile_isSpace h t _ hh]

theorem fields_dropWhile (s : List Char) : Fields (s.dropWhile isSpace) = Fields s := by
  induction s with
  | nil => rfl
  | cons c s ih =>
    rw [List.dropWhile_cons]
    by_cases hc : isSpace c = true
    · rw [if_pos hc, ih]
      simp [Fields, hc]
    · rw [if_neg hc]

theorem fields_space_cons (c : Char) (s : List Char) (hc : isSpace c = true) :
    Fields (c :: s) = Fields s := by
  simp [Fields, hc]

theorem fields_single (a : Char) (ha : isSpace a = false) : Fields [a] = [[a]] := by
  simp [Fields, ha]

theorem fields_cons_space (a d : Char) (s : List Char) (ha : isSpace a = false)
    (hd : isSpace d = true) : Fields (a :: d :: s) = [a] :: Fields s := by
  simp [Fields, ha, hd]

theorem fields_cons_cons (a d : Char) (s : List Char) (ha : isSpace a = false)
    (hd : isSpace d = false) :
    Fields (a :: d :: s) =
      match Fields (d :: s) with
      | [] => [[a]]
      | f :: fs => (a :: f) :: fs := by
  rw [Fields.eq_def]
  simp only [ha, hd]
  simp

theorem fields_concat_space (s : List Char) (c : Char) (hc : isSpace c = true) :
    Fields (s ++ [c]) = Fields s := by
  induction s with
  | nil => simp [Fields, hc]
  | cons a s ih =>
    by_cases ha : isSpace a = true
    · rw [List.cons_append, fields_space_cons a _ ha, fields_space_cons a _ ha, ih]
    · have ha' : isSpace a = false := by simpa using ha
      cases s with
      | nil => simp [Fields, ha, hc]
      | cons d s =>
        by_cases hd : isSpace d = true
        · rw [List.cons_append, List.cons_append, fields_cons_space a d _ ha' hd,
            fields_cons_space a d _ ha' hd]
          rw [List.cons_append, fields_space_cons d _ hd, fields_space_cons d _ hd] at ih
          rw [ih]
        · have hd' : isSpace d = false := by simpa using hd
          rw [List.cons_append, List.cons_append, fields_cons_cons a d _ ha' hd',
            fields_cons_cons a d _ ha' hd', ← List.cons_append, ih]

theorem fields_reverse_dropWhile (s : List Char) :
    Fields ((s.reverse.dropWhile isSpace).reverse) = Fields s := by
  induction s using List.reverseRecOn with
  | nil => rfl
  | append_singleton s c ih =>
    rw [List.reverse_append, List.reverse_singleton, List.singleton_append, List.dropWhile_cons]
    by_cases hc : isSpace c = true
    · rw [if_pos hc, ih, fields_concat_space s c hc]
    · rw [if_neg hc, List.reverse_cons, List.reverse_reverse]

theorem fields_trimSpace (s : List Char) : Fields (TrimSpace s) = Fields s := by
  unfold TrimSpace
  rw [fields_reverse_dropWhile, fields_dropWhile]

/-- A token (non-empty, without white space) followed by a space is the first field. -/
theorem fields_token_space (tok : List Char) (sp : Char) (rest : List Char) (hne : tok ≠ [])
    (htok : ∀ ch ∈ tok, isSpace ch = false) (hsp : isSpace sp = true) :
    Fields (tok ++ sp :: rest) = tok :: Fields rest := by
  induction tok with
  | nil => exact absurd rfl hne
  | cons a tok ih =>
    have ha : isSpace a = false := htok a (List.mem_cons_self _ _)
    cases tok with
    | nil =>
      rw [List.singleton_append, fields_cons_space a sp rest ha hsp]
    | cons b tok =>
      have hb : isSpace b = false := htok b (List.mem_cons_of_mem _ (List.mem_cons_self _ _))
      rw [List.cons_append, List.cons_append, fields_cons_cons a b _ ha hb,
        ← List.cons_append, ih (List.cons_ne_nil _ _)
        (fun ch hch => htok ch (List.mem_cons_of_mem _ hch))]

/-- A token alone is the only field. -/
theorem fields_token (tok : List Char) (hne : tok ≠ [])
    (htok : ∀ ch ∈ tok, isSpace ch = false) : Fields tok = [tok] := by
  have h := fields_token_space tok ' ' [] hne htok (by decide)
  have h2 := fields_concat_space tok ' ' (by decide)
  rw [h] at h2
  simpa [Fields] using h2.symm

theorem split_no_newline (s : List Char) (hs : '\n' ∉ s) : Split s = [s] := by
  induction s with
  | nil => rfl
  | cons c s ih =>
    have hc : ¬ c = '\n' := fun h => hs (h ▸ List.mem_cons_self _ _)
    rw [Split, if_neg hc, ih (fun h => hs (List.mem_cons_of_mem _ h))]

theorem fields_ne_nil (a : Char) (u : List Char) (ha : isSpace a = false) :
    Fields (a :: u) ≠ [] := by
  cases u with
  | nil => rw [fields_single a ha]; exact List.cons_ne_nil _ _
  | cons d u =>
    by_cases hd : isSpace d = true
    · rw [fields_cons_space a d u ha hd]; exact List.cons_ne_nil _ _
    · rw [fields_cons_cons a d u ha (by simpa using hd)]
      cases Fields (d :: u) <;> exact List.cons_ne_nil _ _

theorem fields_length_cons (x : Char) (u : List Char) :
    (Fields u).length ≤ (Fields (x :: u)).length := by
  by_cases hx : isSpace x = true
  · rw [fields_space_cons x u hx]
  · have hx' : isSpace x = false := by simpa using hx
    cases u with
    | nil => simp [Fields]
    | cons d u =>
      by_cases hd : isSpace d = true
      · rw [fields_cons_space x d u hx' hd, fields_space_cons d u hd]
        exact Nat.le_succ _
      · rw [fields_cons_cons x d u hx' (by simpa using hd)]
        cases Fields (d :: u) <;> simp

theorem fields_length_append (s u : List Char) :
    (Fields u).length ≤ (Fields (s ++ u)).length := by
  induction s with
  | nil => exact le_refl _
  | cons x s ih => exact le_trans ih (fields_length_cons x (s ++ u))

/-- A text in which a non-space character, a space and a non-space character follow one
another has at least two fields. -/
theorem fields_length_two (s t : List Char) (a sp b : Char) (ha : isSpace a = false)
    (hsp : isSpace sp = true) (hb : isSpace b = false) :
    2 ≤ (Fields (s ++ a :: sp :: b :: t)).length := by
  refine le_trans ?_ (fields_length_append s _)
  rw [fields_cons_space a sp _ ha hsp]
  have := fields_ne_nil b t hb
  cases h : Fields (b :: t) with
  | nil => exact absurd h this
  | cons f fs => simp

/-- A text that starts and ends with a non-space character is its own trimmed text. -/
theorem trimSpace_eq_self (a e : Char) (m m' : List Char) (l : List Char) (hl : l = a :: m)
    (hr : l.reverse = e :: m') (ha : isSpace a = false) (he : isSpace e = false) :
    TrimSpace l = l := by
  unfold TrimSpace
  rw [hl, List.dropWhile_cons_of_neg (by simp [ha]), ← hl, hr,
    List.dropWhile_cons_of_neg (by simp [he]), ← hr, List.reverse_reverse]

/-- The library model on sample inputs: `strings.Split`, `strings.TrimSpace`,
`strings.Contains`, `strings.Fields` and `strconv.Atoi`. -/
theorem library_samples :
    Split "a\n\nb c\n".toList = ["a".toList, [], "b c".toList, []] ∧
    Split [] = [[]] ∧
    TrimSpace " \t level: 47 \r".toList = "level: 47".toList ∧
    Contains "  AC powered: true".toList "AC powered:".toList = true ∧
    Contains "AC  powered: true".toList "AC powered:".toList = false ∧
    Fields "  AC powered:\ttrue ".toList = ["AC".toList, "powered:".toList, "true".toList] ∧
    Fields " \n ".toList = [] ∧
    Atoi "47".toList = some 47 ∧ Atoi "-12".toList = some (-12) ∧
    Atoi "+5".toList = some 5 ∧ Atoi "007".toList = some 7 ∧
    Atoi [] = none ∧ Atoi "-".toList = none ∧ Atoi "4x".toList = none ∧
    Atoi "1_000".toList = none ∧ Atoi "0x10".toList = none ∧ Atoi "4.5".toList = none ∧
    Atoi "9223372036854775807".toList = some 9223372036854775807 ∧
    Atoi "9223372036854775808".toList = none ∧
    Atoi "-9223372036854775808".toList = some (-9223372036854775808) ∧
    Atoi "-9223372036854775809".toList = none := by
  refine ⟨rfl, rfl, rfl, rfl, rfl, rfl, rfl, rfl, rfl, rfl, rfl, rfl, rfl, rfl, rfl, rfl, rfl,
    ?_, ?_, ?_, ?_⟩ <;> decide

/-! ## One line of the parser -/

theorem contains_trimSpace_key (k : Key) (raw : List Char) :
    Contains (TrimSpace raw) k.text = carries k raw := by
  unfold carries
  cases k
  · exact contains_trimSpace raw _ 'l' ':' "evel:".toList "level".toList rfl rfl
      (by decide) (by decide)
  · exact contains_trimSpace raw _ 'A' ':' "C powered:".toList "derewop CA".toList rfl rfl
      (by decide) (by decide)
  · exact contains_trimSpace raw _ 'U' ':' "SB powered:".toList "derewop BSU".toList rfl rfl
      (by decide) (by decide)
  · exact contains_trimSpace raw _ 's' ':' "tatus:".toList "sutats".toList rfl rfl
      (by decide) (by decide)

/-- The second element of `parts`, as the `len(parts) >= 2` guard and `parts[1]` read it. -/
theorem match_parts {α : Type} (parts : List (List Char)) (f : List Char → α) (d : α) :
    (match parts with
      | _ :: tok :: _ => f tok
      | _ => d) =
    (match parts[1]? with
      | some tok => f tok
      | none => d) := by
  rcases parts with _ | ⟨a, _ | ⟨b, rest⟩⟩ <;> simp

/-- The loop body in terms of the case that handles the line and of its value token. -/
theorem processLine_eq (info : BatteryInfo) (raw : List Char) :
    processLine info raw =
      match handledAs raw, valueToken raw with
      | some .level, some tok =>
        (match Atoi tok with
          | none => .error tok
          | some level => .ok { info with Level := level })
      | some .acPowered, some tok =>
        .ok { info with ACPowered := decide (tok = "true".toList) }
      | some .usbPowered, some tok =>
        .ok { info with USBPowered := decide (tok = "true".toList) }
      | some .status, some tok =>
        (match Atoi tok with
          | some statusCode => .ok { info with Status := statusName statusCode }
          | none => .ok info)
      | _, _ => .ok info := by
  have hl := contains_trimSpace_key .level raw
  have ha := contains_trimSpace_key .acPowered raw
  have hu := contains_trimSpace_key .usbPowered raw
  have hs := contains_trimSpace_key .status raw
  simp only [Key.text] at hl ha hu hs
  unfold processLine handledAs valueToken
  simp only [hl, ha, hu, hs, fields_trimSpace, match_parts]
  by_cases h1 : carries .level raw = true
  · simp only [h1, if_true]
    cases (Fields raw)[1]? <;> rfl
  · by_cases h2 : carries .acPowered raw = true
    · simp only [h1, h2, if_true, if_false]
      cases (Fields raw)[1]? <;> rfl
    · by_cases h3 : carries .usbPowered raw = true
      · simp only [h1, h2, h3, if_true, if_false]
        cases (Fields raw)[1]? <;> rfl
      · by_cases h4 : carries .status raw = true
        · simp only [h1, h2, h3, h4, if_true, if_false]
          cases (Fields raw)[1]? <;> rfl
        · simp only [h1, h2, h3, h4, if_false]
          cases (Fields raw)[1]? <;> rfl

theorem handledAs_level_iff (raw : List Char) :
    handledAs raw = some .level ↔ carries .level raw = true := by
  unfold handledAs
  split_ifs <;> simp [*]

theorem carries_of_handledAs {k : Key} {raw : List Char} (h : handledAs raw = some k) :
    carries k raw = true := by
  unfold handledAs at h
  split_ifs at h with h1 h2 h3 h4 <;> simp at h <;> subst h <;> assumption

/-- The loop body returns the error exactly on a level line whose value token `strconv.Atoi`
rejects, and the error carries that token. -/
theorem processLine_error_iff (info : BatteryInfo) (raw e : List Char) :
    processLine info raw = .error e ↔
      carries .level raw = true ∧ valueToken raw = some e ∧ Atoi e = none := by
  rw [processLine_eq, ← handledAs_level_iff]
  generalize handledAs raw = k
  generalize valueToken raw = v
  rcases k with _ | (_ | _ | _ | _) <;> rcases v with _ | tok <;> simp
  · cases hA : Atoi tok with
    | none =>
      simp only [Except.error.injEq]
      constructor
      · intro h; subst h; exact ⟨rfl, hA⟩
      · rintro ⟨h, _⟩; exact h
    | some n =>
      constructor
      · intro h; exact absurd h (by simp)
      · rintro ⟨h, h2⟩; subst h; rw [hA] at h2; exact absurd h2 (by simp)
  · cases Atoi tok <;> simp

theorem assigns_iff (k : Key) (line : List Char) :
    assigns k line = true ↔
      handledAs line = some k ∧
        ∃ tok, valueToken line = some tok ∧ (k = .status → ∃ n, Atoi tok = some n) := by
  unfold assigns
  rw [Bool.and_eq_true, decide_eq_true_eq]
  refine and_congr_right fun _ => ?_
  cases valueToken line with
  | none => simp
  | some tok =>
    simp only [Bool.or_eq_true, decide_eq_true_eq, Option.some.injEq, exists_eq_left',
      Option.isSome_iff_exists]
    constructor
    · rintro (h | h) hk
      · exact absurd hk h
      · exact h
    · intro h
      by_cases hk : k = .status
      · exact Or.inr (h hk)
      · exact Or.inl hk

theorem not_assigns_of_not_handled {k : Key} {line : List Char} (h : handledAs line ≠ some k) :
    assigns k line = false := by
  rw [← Bool.not_eq_true, assigns_iff]
  exact fun hh => h hh.1

/-- A line that does not assign the field of key `k` leaves that field as it was. -/
theorem processLine_sameField (k : Key) (info info' : BatteryInfo) (raw : List Char)
    (hk : assigns k raw = false) (h : processLine info raw = .ok info') :
    sameField k info' info := by
  rw [← Bool.not_eq_true, assigns_iff] at hk
  rw [processLine_eq] at h
  revert hk h
  generalize handledAs raw = k'
  generalize valueToken raw = v
  intro hk h
  rcases k' with _ | k'
  · rcases v with _ | tok <;>
      (simp only [Except.ok.injEq] at h; subst h; cases k <;> rfl)
  · rcases v with _ | tok
    · cases k' <;> (simp only [Except.ok.injEq] at h; subst h; cases k <;> rfl)
    · cases k'
      · simp only [] at h
        cases hA : Atoi tok with
        | none => rw [hA] at h; simp at h
        | some n =>
          rw [hA] at h
          simp only [Except.ok.injEq] at h
          subst h
          cases k
          · exact absurd ⟨rfl, tok, rfl, fun hne => absurd hne (by decide)⟩ hk
          all_goals rfl
      · simp only [Except.ok.injEq] at h
        subst h
        cases k
        · rfl
        · exact absurd ⟨rfl, tok, rfl, fun hne => absurd hne (by decide)⟩ hk
        all_goals rfl
      · simp only [Except.ok.injEq] at h
        subst h
        cases k
        · rfl
        · rfl
        · exact absurd ⟨rfl, tok, rfl, fun hne => absurd hne (by decide)⟩ hk
        · rfl
      · simp only [] at h
        cases hA : Atoi tok with
        | none =>
          rw [hA] at h
          simp only [Except.ok.injEq] at h
          subst h
          cases k <;> rfl
        | some n =>
          rw [hA] at h
          simp only [Except.ok.injEq] at h
          subst h
          cases k
          · rfl
          · rfl
          · rfl
          · exact absurd ⟨rfl, tok, rfl, fun _ => ⟨n, hA⟩⟩ hk

/-- A line that assigns the field of `k` gives it the value that the line alone gives it,
whatever the record before. -/
theorem processLine_assigns (k : Key) (info info' : BatteryInfo) (raw : List Char)
    (hk : assigns k raw = true) (h : processLine info raw = .ok info') :
    ∃ r1, processLine {} raw = .ok r1 ∧ sameField k info' r1 := by
  obtain ⟨hh, tok, hv, hs⟩ := (assigns_iff k raw).mp hk
  rw [processLine_eq] at h ⊢
  rw [hh, hv] at h ⊢
  cases k
  · simp only at h ⊢
    cases hA : Atoi tok with
    | none => rw [hA] at h; simp at h
    | some n =>
      rw [hA] at h
      simp only [Except.ok.injEq] at h
      subst h
      exact ⟨_, rfl, rfl⟩
  · simp only [Except.ok.injEq] at h
    subst h
    exact ⟨_, rfl, rfl⟩
  · simp only [Except.ok.injEq] at h
    subst h
    exact ⟨_, rfl, rfl⟩
  · obtain ⟨n, hA⟩ := hs rfl
    simp only [hA, Except.ok.injEq] at h ⊢
    subst h
    exact ⟨_, rfl, rfl⟩

/-- The loop body only looks at the trimmed line. -/
theorem processLine_congr (info : BatteryInfo) (raw raw' : List Char)
    (h : TrimSpace raw = TrimSpace raw') : processLine info raw = processLine info raw' := by
  unfold processLine
  rw [h]

/-- A line that carries one of the two-word keys has a value token. -/
theorem valueToken_of_two_words (line key : List Char) (a b : Char) (u v : List Char)
    (hkey : key = u ++ a :: ' ' :: b :: v) (ha : isSpace a = false) (hb : isSpace b = false)
    (hc : Contains line key = true) : ∃ tok, valueToken line = some tok := by
  obtain ⟨s, t, rfl⟩ := (contains_iff_occurs line key).mp hc
  have h2 : 2 ≤ (Fields (s ++ key ++ t)).length := by
    have e : s ++ key ++ t = (s ++ u) ++ a :: ' ' :: b :: (v ++ t) := by
      rw [hkey]; simp
    rw [e]
    exact fields_length_two (s ++ u) (v ++ t) a ' ' b ha (by decide) hb
  unfold valueToken
  cases h : Fields (s ++ key ++ t) with
  | nil => rw [h] at h2; simp at h2
  | cons f fs =>
    cases fs with
    | nil => rw [h] at h2; simp at h2
    | cons g gs => exact ⟨g, by simp⟩

/-- For the keys "AC powered:" and "USB powered:" every line handled by the case of the key
assigns the flag. -/
theorem assigns_powered_iff (line : List Char) :
    (assigns .acPowered line = true ↔ handledAs line = some .acPowered) ∧
    (assigns .usbPowered line = true ↔ handledAs line = some .usbPowered) := by
  constructor
  · rw [assigns_iff]
    refine ⟨fun h => h.1, fun h => ⟨h, ?_⟩⟩
    obtain ⟨tok, ht⟩ := valueToken_of_two_words line _ 'C' 'p' ['A'] "owered:".toList rfl
      (by decide) (by decide) (carries_of_handledAs h)
    exact ⟨tok, ht, fun hne => absurd hne (by decide)⟩
  · rw [assigns_iff]
    refine ⟨fun h => h.1, fun h => ⟨h, ?_⟩⟩
    obtain ⟨tok, ht⟩ := valueToken_of_two_words line _ 'B' 'p' ['U', 'S'] "owered:".toList rfl
      (by decide) (by decide) (carries_of_handledAs h)
    exact ⟨tok, ht, fun hne => absurd hne (by decide)⟩

/-! ## The loop over the lines -/

theorem parseLines_cons_ok (info r : BatteryInfo) (l : List Char) (ls : List (List Char)) :
    parseLines info (l :: ls) = .ok r ↔
      ∃ i1, processLine info l = .ok i1 ∧ parseLines i1 ls = .ok r := by
  rw [parseLines]
  cases processLine info l with
  | error e => simp
  | ok i1 => simp

theorem parseLines_append_ok (info r : BatteryInfo) (pre post : List (List Char)) :
    parseLines info (pre ++ post) = .ok r ↔
      ∃ i0, parseLines info pre = .ok i0 ∧ parseLines i0 post = .ok r := by
  induction pre generalizing info with
  | nil => simp [parseLines]
  | cons l pre ih =>
    rw [List.cons_append, parseLines_cons_ok]
    constructor
    · rintro ⟨i1, h1, h2⟩
      obtain ⟨i0, h3, h4⟩ := (ih i1).mp h2
      exact ⟨i0, (parseLines_cons_ok _ _ _ _).mpr ⟨i1, h1, h3⟩, h4⟩
    · rintro ⟨i0, h1, h2⟩
      obtain ⟨i1, h3, h4⟩ := (parseLines_cons_ok _ _ _ _).mp h1
      exact ⟨i1, h3, (ih i1).mpr ⟨i0, h4, h2⟩⟩

theorem sameField_trans (k : Key) {a b c : BatteryInfo} (h1 : sameField k a b)
    (h2 : sameField k b c) : sameField k a c := by
  cases k <;> exact Eq.trans h1 h2

/-- Lines that do not assign the field of key `k` leave that field as it was. -/
theorem parseLines_sameField (k : Key) (info r : BatteryInfo) (ls : List (List Char))
    (hk : ∀ l ∈ ls, assigns k l = false) (h : parseLines info ls = .ok r) :
    sameField k r info := by
  induction ls generalizing info with
  | nil =>
    simp only [parseLines, Except.ok.injEq] at h
    subst h
    cases k <;> rfl
  | cons l ls ih =>
    obtain ⟨i1, h1, h2⟩ := (parseLines_cons_ok _ _ _ _).mp h
    exact sameField_trans k (ih i1 (fun l' hl' => hk l' (List.mem_cons_of_mem _ hl')) h2)
      (processLine_sameField k info i1 l (hk l (List.mem_cons_self _ _)) h1)

/-- The loop returns an error exactly when some line is a level line whose value token
`strconv.Atoi` rejects. -/
theorem parseLines_error_iff (info : BatteryInfo) (ls : List (List Char)) :
    (∃ e, parseLines info ls = .error e) ↔
      ∃ l ∈ ls, carries .level l = true ∧ ∃ tok, valueToken l = some tok ∧ Atoi tok = none := by
  induction ls generalizing info with
  | nil => simp [parseLines]
  | cons l ls ih =>
    rw [parseLines]
    cases hp : processLine info l with
    | error e =>
      have := (processLine_error_iff info l e).mp hp
      simp only [Except.error.injEq, exists_eq', List.mem_cons, exists_eq_or_imp, true_iff]
      exact Or.inl ⟨this.1, e, this.2.1, this.2.2⟩
    | ok i1 =>
      simp only [List.mem_cons, exists_eq_or_imp]
      rw [ih i1]
      constructor
      · exact Or.inr
      · rintro (⟨hc, tok, hv, hA⟩ | h)
        · have := (processLine_error_iff info l tok).mpr ⟨hc, hv, hA⟩
          rw [hp] at this
          exact absurd this (by simp)
        · exact h

/-- The error of the loop carries the value token of a level line that `strconv.Atoi`
rejects. -/
theorem parseLines_error_token (info : BatteryInfo) (ls : List (List Char)) (e : List Char)
    (h : parseLines info ls = .error e) :
    ∃ l ∈ ls, carries .level l = true ∧ valueToken l = some e ∧ Atoi e = none := by
  induction ls generalizing info with
  | nil => simp [parseLines] at h
  | cons l ls ih =>
    rw [parseLines] at h
    cases hp : processLine info l with
    | error e' =>
      rw [hp] at h
      simp only [Except.error.injEq] at h
      subst h
      exact ⟨l, List.mem_cons_self _ _, (processLine_error_iff info l e').mp hp⟩
    | ok i1 =>
      rw [hp] at h
      obtain ⟨l', hl', h'⟩ := ih i1 h
      exact ⟨l', List.mem_cons_of_mem _ hl', h'⟩

/-! ## The parser -/

/-- In a line that starts with "AC powered: " the token `parts[1]` is the word "powered:",
whatever follows: the line sets `ACPowered` to false, or fails the parse when the rest contains
"level:". -/
theorem processLine_ac_line (info : BatteryInfo) (rest : List Char) :
    processLine info ("AC powered: ".toList ++ rest) =
      if Contains rest "level:".toList then .error "powered:".toList
      else .ok { info with ACPowered := false } := by
  have e : "AC powered: ".toList ++ rest =
      'A' :: 'C' :: ' ' :: 'p' :: 'o' :: 'w' :: 'e' :: 'r' :: 'e' :: 'd' :: ':' :: ' ' :: rest :=
    rfl
  have e2 : "AC powered: ".toList ++ rest =
      "AC".toList ++ ' ' :: ("powered:".toList ++ ' ' :: rest) := rfl
  have kl : "level:".toList = ['l', 'e', 'v', 'e', 'l', ':'] := rfl
  have ka : "AC powered:".toList = ['A', 'C', ' ', 'p', 'o', 'w', 'e', 'r', 'e', 'd', ':'] := rfl
  have h1 : carries .level ("AC powered: ".toList ++ rest) = Contains rest "level:".toList := by
    unfold carries Key.text
    rw [e, kl]
    simp [Contains, List.isPrefixOf]
  have h2 : carries .acPowered ("AC powered: ".toList ++ rest) = true := by
    unfold carries Key.text
    rw [e, ka]
    simp [Contains, List.isPrefixOf]
  have hv : valueToken ("AC powered: ".toList ++ rest) = some "powered:".toList := by
    unfold valueToken
    rw [e2, fields_token_space _ ' ' _ (by decide) (by decide) (by decide),
      fields_token_space _ ' ' _ (by decide) (by decide) (by decide)]
    simp
  rw [processLine_eq, hv]
  unfold handledAs
  rw [h1, h2]
  by_cases hl : Contains rest "level:".toList = true
  · simp only [hl, if_true]
    rfl
  · simp only [hl, if_false, if_true]
    rfl

/-- In a line that starts with "USB powered: " the token `parts[1]` is the word "powered:":
unless an earlier case handles the line, it sets `USBPowered` to false. -/
theorem processLine_usb_line (info : BatteryInfo) (rest : List Char)
    (hl : Contains rest "level:".toList = false)
    (ha : Contains rest "AC powered:".toList = false) :
    processLine info ("USB powered: ".toList ++ rest) =
      .ok { info with USBPowered := false } := by
  have e : "USB powered: ".toList ++ rest =
      'U' :: 'S' :: 'B' :: ' ' :: 'p' :: 'o' :: 'w' :: 'e' :: 'r' :: 'e' :: 'd' :: ':' :: ' ' ::
        rest := rfl
  have e2 : "USB powered: ".toList ++ rest =
      "USB".toList ++ ' ' :: ("powered:".toList ++ ' ' :: rest) := rfl
  have kl : "level:".toList = ['l', 'e', 'v', 'e', 'l', ':'] := rfl
  have ka : "AC powered:".toList = ['A', 'C', ' ', 'p', 'o', 'w', 'e', 'r', 'e', 'd', ':'] := rfl
  have ku : "USB powered:".toList =
      ['U', 'S', 'B', ' ', 'p', 'o', 'w', 'e', 'r', 'e', 'd', ':'] := rfl
  have h1 : carries .level ("USB powered: ".toList ++ rest) = false := by
    unfold carries Key.text
    rw [kl] at hl ⊢
    rw [e]
    simp [Contains, List.isPrefixOf, hl]
  have h2 : carries .acPowered ("USB powered: ".toList ++ rest) = false := by
    unfold carries Key.text
    rw [ka] at ha ⊢
    rw [e]
    simp [Contains, List.isPrefixOf, ha]
  have h3 : carries .usbPowered ("USB powered: ".toList ++ rest) = true := by
    unfold carries Key.text
    rw [e, ku]
    simp [Contains, List.isPrefixOf]
  have hv : valueToken ("USB powered: ".toList ++ rest) = some "powered:".toList := by
    unfold valueToken
    rw [e2, fields_token_space _ ' ' _ (by decide) (by decide) (by decide),
      fields_token_space _ ' ' _ (by decide) (by decide) (by decide)]
    simp
  rw [processLine_eq, hv]
  unfold handledAs
  rw [h1, h2, h3]
  rfl

/-- C1, at the example of the specification: the text
"level: 47\nstatus: 3\nAC powered: false\nUSB powered: true" is parsed into a record with
`USBPowered = false`, because the token compared with "true" is `parts[1]`, the word
"powered:" of the two-word key, not the value after it; so a line "AC powered: t" or
"USB powered: t" sets the flag to false for every value `t`, also for "true". -/
theorem parseBatteryData_powered_example :
    parseBatteryData "level: 47\nstatus: 3\nAC powered: false\nUSB powered: true" =
      .ok { Level := 47, Status := "Discharging", ACPowered := false, USBPowered := false } ∧
    valueToken "USB powered: true".toList = some "powered:".toList ∧
    parseBatteryData "AC powered: true\nUSB powered: true" =
      .ok { Level := 0, Status := "", ACPowered := false, USBPowered := false } ∧
    (∀ (info : BatteryInfo) (t : List Char), Contains t "level:".toList = false →
      processLine info ("AC powered: ".toList ++ t) = .ok { info with ACPowered := false }) ∧
    (∀ (info : BatteryInfo) (t : List Char), Contains t "level:".toList = false →
      Contains t "AC powered:".toList = false →
      processLine info ("USB powered: ".toList ++ t) =
        .ok { info with USBPowered := false }) := by
  refine ⟨rfl, rfl, rfl, ?_, ?_⟩
  · intro info t ht
    rw [processLine_ac_line, ht]
    rfl
  · intro info t hl ha
    exact processLine_usb_line info t hl ha

/-- C4: `parseBatteryData` fails iff some line of the text contains "level:" and has a second
white-space-delimited token that does not parse as a base-10 integer, and the error then
carries such a token; every other text yields a record, with `Level = 0` when no line contains
"level:"; the empty text and a text with malformed status and boolean tokens yield the zero
record, "level: abc" fails. -/
theorem parseBatteryData_fails_iff (output : String) :
    ((∃ tok, parseBatteryData output = .error tok) ↔
      ∃ line ∈ Split output.toList, Contains line "level:".toList = true ∧
        ∃ tok, (Fields line)[1]? = some tok ∧ Atoi tok = none) ∧
    (∀ tok, parseBatteryData output = .error tok →
      ∃ line ∈ Split output.toList, Contains line "level:".toList = true ∧
        (Fields line)[1]? = some tok ∧ Atoi tok = none) ∧
    ((¬ ∃ line ∈ Split output.toList, Contains line "level:".toList = true ∧
        ∃ tok, (Fields line)[1]? = some tok ∧ Atoi tok = none) →
      ∃ r, parseBatteryData output = .ok r) ∧
    ((∀ line ∈ Split output.toList, Contains line "level:".toList = false) →
      ∃ r, parseBatteryData output = .ok r ∧ r.Level = 0) ∧
    parseBatteryData "" = .ok {} ∧
    parseBatteryData "level: abc" = .error "abc".toList ∧
    parseBatteryData "status: x\nAC powered: maybe\nUSB powered:" = .ok {} := by
  have hiff := parseLines_error_iff {} (Split output.toList)
  refine ⟨hiff, parseLines_error_token {} (Split output.toList), ?_, ?_, rfl, rfl, rfl⟩
  · intro hno
    cases hp : parseBatteryData output with
    | error e => exact absurd (hiff.mp ⟨e, hp⟩) hno
    | ok r => exact ⟨r, rfl⟩
  · intro hno
    have hno' : ¬ ∃ l ∈ Split output.toList, carries .level l = true ∧
        ∃ tok, valueToken l = some tok ∧ Atoi tok = none := by
      rintro ⟨l, hl, hc, _⟩
      have := hno l hl
      unfold carries Key.text at hc
      rw [this] at hc
      exact absurd hc (by simp)
    cases hp : parseBatteryData output with
    | error e => exact absurd (hiff.mp ⟨e, hp⟩) hno'
    | ok r =>
      refine ⟨r, rfl, ?_⟩
      refine parseLines_sameField .level {} r (Split output.toList) ?_ hp
      intro l hl
      refine not_assigns_of_not_handled ?_
      intro hk
      have hc := carries_of_handledAs hk
      unfold carries Key.text at hc
      rw [hno l hl] at hc
      exact absurd hc (by simp)

/-- A text without white space does not contain a pattern that has a space in it. -/
theorem contains_of_no_space (c sub : List Char) (hc : ∀ ch ∈ c, isSpace ch = false)
    (hsub : ' ' ∈ sub) : Contains c sub = false := by
  rw [contains_eq_false_iff]
  intro hi
  have := hc ' ' (hi.subset hsub)
  exact absurd this (by decide)

/-- The line "status: c", for a token `c`, is handled by the status case unless `c` contains
"level:", and its value token is `c`. -/
theorem status_line_shape (c : List Char) (hne : c ≠ [])
    (htok : ∀ ch ∈ c, isSpace ch = false) :
    handledAs ("status: ".toList ++ c) =
      (if Contains c "level:".toList then some .level else some .status) ∧
    valueToken ("status: ".toList ++ c) = some c := by
  have e : "status: ".toList ++ c = 's' :: 't' :: 'a' :: 't' :: 'u' :: 's' :: ':' :: ' ' :: c :=
    rfl
  have e2 : "status: ".toList ++ c = "status:".toList ++ ' ' :: c := rfl
  have hAC : Contains c "AC powered:".toList = false :=
    contains_of_no_space c _ htok (by decide)
  have hUSB : Contains c "USB powered:".toList = false :=
    contains_of_no_space c _ htok (by decide)
  have kl : "level:".toList = ['l', 'e', 'v', 'e', 'l', ':'] := rfl
  have ka : "AC powered:".toList = ['A', 'C', ' ', 'p', 'o', 'w', 'e', 'r', 'e', 'd', ':'] := rfl
  have ku : "USB powered:".toList =
      ['U', 'S', 'B', ' ', 'p', 'o', 'w', 'e', 'r', 'e', 'd', ':'] := rfl
  have ks : "status:".toList = ['s', 't', 'a', 't', 'u', 's', ':'] := rfl
  constructor
  · have h1 : carries .level ("status: ".toList ++ c) = Contains c "level:".toList := by
      unfold carries Key.text
      rw [e, kl]
      simp [Contains, List.isPrefixOf]
    have h2 : carries .acPowered ("status: ".toList ++ c) = false := by
      unfold carries Key.text
      rw [ka] at hAC ⊢
      rw [e]
      simp [Contains, List.isPrefixOf, hAC]
    have h3 : carries .usbPowered ("status: ".toList ++ c) = false := by
      unfold carries Key.text
      rw [ku] at hUSB ⊢
      rw [e]
      simp [Contains, List.isPrefixOf, hUSB]
    have h4 : carries .status ("status: ".toList ++ c) = true := by
      unfold carries Key.text
      rw [e, ks]
      simp [Contains, List.isPrefixOf]
    unfold handledAs
    rw [h1, h2, h3, h4]
    simp
  · unfold valueToken
    rw [e2, fields_token_space _ ' ' c (by decide) (by decide) (by decide),
      fields_token c hne htok]
    rfl

/-- C5, amended: for a token `c` that does not contain "level:", a line that is "status: c"
up to surrounding white space causes no error; when `c` parses as an integer `n` it sets Status
to Charging for 2, Discharging for 3, Not charging for 4, Full for 5 and Unknown for every
other `n`; when `c` does not parse it leaves the record as it was (Status at its default in a
text of that one line). -/
theorem processLine_status_line (info : BatteryInfo) (line c : List Char)
    (hline : TrimSpace line = "status: ".toList ++ c) (hne : c ≠ [])
    (htok : ∀ ch ∈ c, isSpace ch = false) (hlevel : Contains c "level:".toList = false) :
    processLine info line =
      .ok (match Atoi c with
        | some n => { info with Status := statusName n }
        | none => info) ∧
    parseBatteryData (String.mk ("status: ".toList ++ c)) =
      .ok (match Atoi c with
        | some n => { Status := statusName n }
        | none => {}) ∧
    statusName 2 = "Charging" ∧ statusName 3 = "Discharging" ∧
    statusName 4 = "Not charging" ∧ statusName 5 = "Full" ∧
    ∀ n : Int, n ≠ 2 → n ≠ 3 → n ≠ 4 → n ≠ 5 → statusName n = "Unknown" := by
  obtain ⟨hh0, hv⟩ := status_line_shape c hne htok
  have hh : handledAs ("status: ".toList ++ c) = some .status := by
    rw [hh0, hlevel]; rfl
  have hp : ∀ i : BatteryInfo, processLine i ("status: ".toList ++ c) =
      .ok (match Atoi c with
        | some n => { i with Status := statusName n }
        | none => i) := by
    intro i
    rw [processLine_eq, hh, hv]
    simp only []
    cases Atoi c <;> rfl
  have htrim : TrimSpace ("status: ".toList ++ c) = "status: ".toList ++ c := by
    cases hr : c.reverse with
    | nil => exact absurd (List.reverse_eq_nil_iff.mp hr) hne
    | cons e m' =>
      have he : isSpace e = false :=
        htok e (List.mem_reverse.mp (hr ▸ List.mem_cons_self e m'))
      refine trimSpace_eq_self 's' e ("tatus: ".toList ++ c) (m' ++ "status: ".toList.reverse)
        _ rfl ?_ (by decide) he
      rw [List.reverse_append, hr]
      rfl
  refine ⟨?_, ?_, rfl, rfl, rfl, rfl, ?_⟩
  · rw [processLine_congr info line ("status: ".toList ++ c) (hline.trans htrim.symm)]
    exact hp info
  · have hnl : '\n' ∉ "status: ".toList ++ c := by
      rw [List.mem_append]
      rintro (h | h)
      · exact absurd h (by decide)
      · exact absurd (htok '\n' h) (by decide)
    unfold parseBatteryData
    show parseLines {} (Split ("status: ".toList ++ c)) = _
    rw [split_no_newline _ hnl, parseLines, hp {}]
    rfl
  · intro n h2 h3 h4 h5
    unfold statusName
    rw [if_neg h2, if_neg h3, if_neg h4, if_neg h5]

/-- Witness of C5 amended: "status: 2" gives Charging, "status: 7" Unknown, "status: x" leaves
the Status empty, and the indented line "  status: 5" with a carriage return gives Full. -/
theorem processLine_status_line_witness :
    parseBatteryData "status: 2" = .ok { Status := "Charging" } ∧
    parseBatteryData "status: 7" = .ok { Status := "Unknown" } ∧
    parseBatteryData "status: x" = .ok { Status := "" } ∧
    processLine {} "  status: 5\r".toList = .ok { Status := "Full" } :=
  ⟨(processLine_status_line {} "status: 2".toList "2".toList rfl
      (by decide) (by decide) (by decide)).2.1,
   (processLine_status_line {} "status: 7".toList "7".toList rfl
      (by decide) (by decide) (by decide)).2.1,
   (processLine_status_line {} "status: x".toList "x".toList rfl
      (by decide) (by decide) (by decide)).2.1,
   (processLine_status_line {} "  status: 5\r".toList "5".toList rfl
      (by decide) (by decide) (by decide)).1⟩

/-- C5 as stated fails on the line "status: level:": its token does not parse as an integer,
yet the line is handled by the level case, which comes first, and the whole parse fails.  And
after "status: 2" the line "status: x" leaves Charging in place, not the default. -/
theorem parseBatteryData_status_level_error :
    Atoi "level:".toList = none ∧
    parseBatteryData "status: level:" = .error "level:".toList ∧
    parseBatteryData "status: 2\nstatus: x" = .ok { Status := "Charging" } :=
  ⟨rfl, rfl, rfl⟩

/-- C10 as stated fails: in "status: 2\nstatus: x" the last line carrying the status key
leaves the Status of the earlier line in place, and in "level: 5\nlevel:" the last level line
leaves the Level of the earlier one; alone, those last lines give the default values. -/
theorem parseBatteryData_last_line_skipped :
    parseBatteryData "status: 2\nstatus: x" = .ok { Status := "Charging" } ∧
    parseBatteryData "status: x" = .ok { Status := "" } ∧
    parseBatteryData "level: 5\nlevel:" = .ok { Level := 5 } ∧
    parseBatteryData "level:" = .ok { Level := 0 } ∧
    parseBatteryData "status: 2\nlevel: 5 status: 3" = .ok { Level := 5, Status := "Charging" } :=
  ⟨rfl, rfl, rfl, rfl, rfl⟩

/-- C10, amended: in a text that parses without error, the field of a key is the one given by
the last line that assigns it, that is, the last line handled by the case of that key that has
a value token (for the status, one that parses as an integer); the lines before it have no
effect on that field, and later lines that carry the key without assigning it leave it in
place. -/
theorem parseBatteryData_last_assignment (output : String) (pre post : List (List Char))
    (line : List Char) (k : Key) (r : BatteryInfo)
    (hsplit : Split output.toList = pre ++ line :: post)
    (hassign : assigns k line = true)
    (hlast : ∀ l ∈ post, assigns k l = false)
    (hok : parseBatteryData output = .ok r) :
    ∃ r1, processLine {} line = .ok r1 ∧ sameField k r r1 := by
  unfold parseBatteryData at hok
  rw [hsplit] at hok
  obtain ⟨i0, _, h1⟩ := (parseLines_append_ok _ _ _ _).mp hok
  obtain ⟨i1, h2, h3⟩ := (parseLines_cons_ok _ _ _ _).mp h1
  obtain ⟨r1, h4, h5⟩ := processLine_assigns k i0 i1 line hassign h2
  exact ⟨r1, h4, sameField_trans k (parseLines_sameField k i1 r post hlast h3) h5⟩

/-- Witness of C10 amended: the Status of
"status: 2\nstatus: x\nlevel: 5\nstatus: 3\nstatus: y\nAC powered: true" is the one of
"status: 3". -/
theorem parseBatteryData_last_assignment_witness :
    ∃ r1, processLine {} "status: 3".toList = .ok r1 ∧
      sameField .status { Level := 5, Status := "Discharging" } r1 :=
  parseBatteryData_last_assignment
    "status: 2\nstatus: x\nlevel: 5\nstatus: 3\nstatus: y\nAC powered: true"
    ["status: 2".toList, "status: x".toList, "level: 5".toList]
    ["status: y".toList, "AC powered: true".toList]
    "status: 3".toList .status { Level := 5, Status := "Discharging" }
    rfl rfl (by decide) rfl

/-! ## The battery colour -/

/-- C2: with Status other than "Charging" and both power flags false, for every integer level
and every output mode the colour is High iff `Level ≥ 80`, Medium iff `20 ≤ Level < 80`, and
Low iff `Level < 20`. -/
theorem getBatteryColor_level_bands (info : BatteryInfo) (outputMode : String)
    (hStatus : info.Status ≠ "Charging") (hAC : info.ACPowered = false)
    (hUSB : info.USBPowered = false) :
    (getBatteryColor info outputMode = highColor outputMode ↔ info.Level ≥ 80) ∧
    (getBatteryColor info outputMode = mediumColor outputMode ↔
      20 ≤ info.Level ∧ info.Level < 80) ∧
    (getBatteryColor info outputMode = lowColor outputMode ↔ info.Level < 20) := by
  have hcond : ¬ (info.Status = "Charging" ∨ info.ACPowered = true ∨ info.USBPowered = true) := by
    simp [hStatus, hAC, hUSB]
  unfold getBatteryColor highColor mediumColor lowColor
  rw [if_neg hcond]
  by_cases hm : outputMode = "genmon" <;> simp only [hm, if_true, if_false] <;>
    split_ifs with h80 h20 <;>
    refine ⟨?_, ?_, ?_⟩ <;> constructor <;> intro h <;>
    first
      | omega
      | rfl
      | exact absurd h (by decide)

/-- Witness of C2 at the four boundary levels 80, 79, 20 and 19 of a discharging battery. -/
theorem getBatteryColor_level_bands_witness :
    getBatteryColor { Level := 80, Status := "Discharging" } "bash" = highColor "bash" ∧
    getBatteryColor { Level := 79, Status := "Discharging" } "bash" = mediumColor "bash" ∧
    getBatteryColor { Level := 20, Status := "Discharging" } "genmon" = mediumColor "genmon" ∧
    getBatteryColor { Level := 19, Status := "Discharging" } "genmon" = lowColor "genmon" :=
  ⟨(getBatteryColor_level_bands { Level := 80, Status := "Discharging" } "bash"
      (by decide) rfl rfl).1.2 (by decide),
   (getBatteryColor_level_bands { Level := 79, Status := "Discharging" } "bash"
      (by decide) rfl rfl).2.1.2 (by decide),
   (getBatteryColor_level_bands { Level := 20, Status := "Discharging" } "genmon"
      (by decide) rfl rfl).2.1.2 (by decide),
   (getBatteryColor_level_bands { Level := 19, Status := "Discharging" } "genmon"
      (by decide) rfl rfl).2.2.2 (by decide)⟩

/-- C3: when Status is "Charging" or one of the power flags is set, the colour is the Charging
colour in every output mode, it is none of the three level-band colours, and it does not
depend on the level. -/
theorem getBatteryColor_charging (info : BatteryInfo) (outputMode : String)
    (h : info.Status = "Charging" ∨ info.ACPowered = true ∨ info.USBPowered = true) :
    getBatteryColor info outputMode = chargingColor outputMode ∧
    getBatteryColor info outputMode ≠ highColor outputMode ∧
    getBatteryColor info outputMode ≠ mediumColor outputMode ∧
    getBatteryColor info outputMode ≠ lowColor outputMode ∧
    ∀ level : Int,
      getBatteryColor { info with Level := level } outputMode =
        getBatteryColor info outputMode := by
  have hc : ∀ i : BatteryInfo,
      (i.Status = "Charging" ∨ i.ACPowered = true ∨ i.USBPowered = true) →
      getBatteryColor i outputMode = chargingColor outputMode := by
    intro i hi
    unfold getBatteryColor chargingColor
    rw [if_pos hi]
  refine ⟨hc info h, ?_, ?_, ?_, ?_⟩
  · rw [hc info h]; unfold chargingColor highColor
    split_ifs <;> decide
  · rw [hc info h]; unfold chargingColor mediumColor
    split_ifs <;> decide
  · rw [hc info h]; unfold chargingColor lowColor
    split_ifs <;> decide
  · intro level
    rw [hc info h, hc { info with Level := level } h]

/-- Witness of C3: level 5 on AC power. -/
theorem getBatteryColor_charging_witness :
    getBatteryColor { Level := 5, ACPowered := true } "genmon" = chargingColor "genmon" :=
  (getBatteryColor_charging { Level := 5, ACPowered := true } "genmon"
    (Or.inr (Or.inl rfl))).1

/-! ## The notification gate -/

/-- C7: for a clock reading with minute in [0,59] (and any hour) and every configured target,
`IsNotifyTime` is true iff the hours agree and
`targetMinute ≤ currentMinute < targetMinute + 60`; for a target minute in [0,59] that is
exactly the minutes `targetMinute..59` of the target hour. -/
theorem isNotifyTime_iff (c : Config) (now : Clock)
    (hMinute : 0 ≤ now.Minute ∧ now.Minute ≤ 59)
    (hTarget : isInt64 c.Notify.Time.Minute) :
    (c.IsNotifyTime now = true ↔
      now.Hour = c.Notify.Time.Hour ∧ c.Notify.Time.Minute ≤ now.Minute ∧
        now.Minute < c.Notify.Time.Minute + 60) ∧
    (0 ≤ c.Notify.Time.Minute ∧ c.Notify.Time.Minute ≤ 59 →
      (c.IsNotifyTime now = true ↔
        now.Hour = c.Notify.Time.Hour ∧ c.Notify.Time.Minute ≤ now.Minute)) := by
  obtain ⟨hlo, hhi⟩ := hTarget
  have key : c.IsNotifyTime now = true ↔
      now.Hour = c.Notify.Time.Hour ∧ c.Notify.Time.Minute ≤ now.Minute ∧
        now.Minute < c.Notify.Time.Minute + 60 := by
    unfold Config.IsNotifyTime wrapInt
    by_cases hh : now.Hour = c.Notify.Time.Hour
    · simp only [hh, ne_eq, not_true_eq_false, if_false, Bool.and_eq_true, decide_eq_true_eq,
        true_and, ge_iff_le]
      constructor
      · rintro ⟨h1, h2⟩
        refine ⟨h1, ?_⟩
        omega
      · rintro ⟨h1, h2⟩
        refine ⟨h1, ?_⟩
        omega
    · simp [hh]
  refine ⟨key, ?_⟩
  intro hm
  rw [key]
  constructor
  · rintro ⟨h1, h2, _⟩
    exact ⟨h1, h2⟩
  · rintro ⟨h1, h2⟩
    exact ⟨h1, h2, by omega⟩

/-- Witness of C7 with the target 21:30: true at 21:45, false at 21:15 and at 22:00. -/
theorem isNotifyTime_iff_witness :
    (sampleConfig (.finite 50) [1] 21 30).IsNotifyTime { Hour := 21, Minute := 45 } = true ∧
    (sampleConfig (.finite 50) [1] 21 30).IsNotifyTime { Hour := 21, Minute := 15 } ≠ true ∧
    (sampleConfig (.finite 50) [1] 21 30).IsNotifyTime { Hour := 22, Minute := 0 } ≠ true :=
  ⟨(isNotifyTime_iff (sampleConfig (.finite 50) [1] 21 30) { Hour := 21, Minute := 45 }
      (by decide) (by unfold isInt64 sampleConfig; decide)).1.2 (by decide),
   fun h => absurd ((isNotifyTime_iff (sampleConfig (.finite 50) [1] 21 30) { Hour := 21, Minute := 15 }
      (by decide) (by unfold isInt64 sampleConfig; decide)).1.1 h) (by decide),
   fun h => absurd ((isNotifyTime_iff (sampleConfig (.finite 50) [1] 21 30) { Hour := 22, Minute := 0 }
      (by decide) (by unfold isInt64 sampleConfig; decide)).1.1 h) (by decide)⟩

/-! ## binary64 rounding -/

theorem roundHalfEven_cases (y : ℚ) : roundHalfEven y = ⌊y⌋ ∨
    (roundHalfEven y = ⌊y⌋ + 1 ∧ 1 / 2 ≤ y - ⌊y⌋) := by
  unfold roundHalfEven
  simp only []
  split_ifs with h1 h2 h3
  · exact Or.inl rfl
  · exact Or.inr ⟨rfl, h2.le⟩
  · exact Or.inl rfl
  · exact Or.inr ⟨rfl, not_lt.mp h1⟩

theorem roundHalfEven_ge (N : Int) (y : ℚ) (h : (N : ℚ) ≤ y) : N ≤ roundHalfEven y := by
  have hf : N ≤ ⌊y⌋ := Int.le_floor.mpr h
  rcases roundHalfEven_cases y with h1 | ⟨h1, _⟩ <;> omega

theorem roundHalfEven_le (M : Int) (y : ℚ) (h : y ≤ (M : ℚ)) : roundHalfEven y ≤ M := by
  rcases roundHalfEven_cases y with h1 | ⟨h1, h2⟩
  · rw [h1]
    have : (⌊y⌋ : ℚ) ≤ y := Int.floor_le y
    exact_mod_cast le_trans this h
  · rw [h1]
    have hlt : (⌊y⌋ : ℚ) < M := by linarith
    have : ⌊y⌋ < M := by exact_mod_cast hlt
    omega

theorem roundHalfEven_intCast (n : Int) : roundHalfEven (n : ℚ) = n := by
  exact le_antisymm (roundHalfEven_le n _ le_rfl) (roundHalfEven_ge n _ le_rfl)

theorem roundHalfEven_eq_of_abs_lt (y : ℚ) (n : Int) (h : |y - n| < 1 / 2) :
    roundHalfEven y = n := by
  rw [abs_lt] at h
  by_cases hy : (n : ℚ) ≤ y
  · have hf : ⌊y⌋ = n := Int.floor_eq_iff.mpr ⟨hy, by linarith⟩
    unfold roundHalfEven
    simp only [hf]
    rw [if_pos (by linarith)]
  · have hf : ⌊y⌋ = n - 1 := Int.floor_eq_iff.mpr ⟨by push_cast; linarith, by push_cast; linarith⟩
    unfold roundHalfEven
    simp only [hf]
    push_cast
    rw [if_neg (by linarith), if_pos (by linarith)]
    ring


theorem two_zpow_pos (u : ℤ) : (0 : ℚ) < 2 ^ u := zpow_pos (by norm_num) u

theorem log_two_eq (r : ℚ) (e : ℤ) (hlo : (2 : ℚ) ^ e ≤ r) (hhi : r < 2 ^ (e + 1)) :
    Int.log 2 r = e := by
  have hr : 0 < r := lt_of_lt_of_le (two_zpow_pos e) hlo
  have h1 : e ≤ Int.log 2 r :=
    (Int.zpow_le_iff_le_log (by norm_num) hr).mp (by simpa using hlo)
  have h2 : Int.log 2 r < e + 1 :=
    (Int.lt_zpow_iff_log_lt (by norm_num) hr).mp (by simpa using hhi)
  omega

theorem log_two_lt (r : ℚ) (e : ℤ) (hr : 0 < r) (hhi : r < 2 ^ e) : Int.log 2 r < e :=
  (Int.lt_zpow_iff_log_lt (by norm_num) hr).mp (by simpa using hhi)

/-- The value of `round64` from the binade of `x` and the nearest multiple of the unit in the
last place. -/
theorem round64_eval_abs (x : ℚ) (e : ℤ) (n : Int) (hlo : (2 : ℚ) ^ e ≤ |x|)
    (hhi : |x| < 2 ^ (e + 1)) (he : -1022 ≤ e) (hn : |x / 2 ^ (e - 52) - n| < 1 / 2)
    (hfin : |(n : ℚ) * 2 ^ (e - 52)| < 2 ^ 1024) :
    round64 x = some ((n : ℚ) * 2 ^ (e - 52)) := by
  have hx : x ≠ 0 := by
    intro h
    rw [h, abs_zero] at hlo
    exact absurd hlo (not_le.mpr (two_zpow_pos e))
  have hu : ulpExp x = e - 52 := by
    unfold ulpExp
    rw [log_two_eq |x| e hlo hhi, max_eq_left he]
  have hr : roundToUlp x = (n : ℚ) * 2 ^ (e - 52) := by
    unfold roundToUlp
    rw [hu, roundHalfEven_eq_of_abs_lt _ n hn]
  unfold round64
  rw [if_neg hx, hr, if_pos hfin]

/-- The same for a positive `x`. -/
theorem round64_eval (x : ℚ) (e : ℤ) (n : Int) (hlo : (2 : ℚ) ^ e ≤ x)
    (hhi : x < 2 ^ (e + 1)) (he : -1022 ≤ e) (hn : |x / 2 ^ (e - 52) - n| < 1 / 2)
    (hfin : |(n : ℚ) * 2 ^ (e - 52)| < 2 ^ 1024) :
    round64 x = some ((n : ℚ) * 2 ^ (e - 52)) := by
  have hpos : 0 < x := lt_of_lt_of_le (two_zpow_pos e) hlo
  exact round64_eval_abs x e n (by rw [abs_of_pos hpos]; exact hlo)
    (by rw [abs_of_pos hpos]; exact hhi) he hn hfin

theorem roundToUlp_nonneg (x : ℚ) (hx : 0 ≤ x) : 0 ≤ roundToUlp x := by
  unfold roundToUlp
  refine mul_nonneg ?_ (two_zpow_pos _).le
  have : (0 : Int) ≤ roundHalfEven (x / 2 ^ ulpExp x) :=
    roundHalfEven_ge 0 _ (by simpa using div_nonneg hx (two_zpow_pos _).le)
  exact_mod_cast this

theorem roundToUlp_nonpos (x : ℚ) (hx : x ≤ 0) : roundToUlp x ≤ 0 := by
  unfold roundToUlp
  refine mul_nonpos_of_nonpos_of_nonneg ?_ (two_zpow_pos _).le
  have : roundHalfEven (x / 2 ^ ulpExp x) ≤ (0 : Int) :=
    roundHalfEven_le 0 _ (by simpa using div_nonpos_of_nonpos_of_nonneg hx (two_zpow_pos _).le)
  exact_mod_cast this

theorem round64_some (x r : ℚ) (h : round64 x = some r) :
    (x = 0 ∧ r = 0) ∨ (x ≠ 0 ∧ r = roundToUlp x) := by
  unfold round64 at h
  split_ifs at h with h0 hfin
  · simp only [Option.some.injEq] at h
    exact Or.inl ⟨h0, h.symm⟩
  · simp only [Option.some.injEq] at h
    exact Or.inr ⟨h0, h.symm⟩

/-- Rounding keeps the sign. -/
theorem round64_nonneg (x r : ℚ) (hx : 0 ≤ x) (h : round64 x = some r) : 0 ≤ r := by
  rcases round64_some x r h with ⟨_, h⟩ | ⟨_, h⟩
  · rw [h]
  · rw [h]; exact roundToUlp_nonneg x hx

theorem round64_nonpos (x r : ℚ) (hx : x ≤ 0) (h : round64 x = some r) : r ≤ 0 := by
  rcases round64_some x r h with ⟨_, h⟩ | ⟨_, h⟩
  · rw [h]
  · rw [h]; exact roundToUlp_nonpos x hx

/-- Below `2 ^ 53` in absolute value the unit in the last place is at most one. -/
theorem ulpExp_nonpos (x : ℚ) (hx : x ≠ 0) (h : |x| < 2 ^ 53) : ulpExp x ≤ 0 := by
  unfold ulpExp
  have h' : |x| < (2 : ℚ) ^ (53 : ℤ) := by
    rw [zpow_ofNat]; exact h
  have := log_two_lt |x| 53 (abs_pos.mpr hx) h'
  have : max (Int.log 2 |x|) (-1022) ≤ 52 := max_le (by omega) (by norm_num)
  omega

/-- Rounding does not cross an integer: between two integers, below `2 ^ 53` in absolute
value, the rounded value stays between them. -/
theorem roundToUlp_between (x : ℚ) (N M : Int) (h0 : x ≠ 0) (h53 : |x| < 2 ^ 53)
    (hN : (N : ℚ) ≤ x) (hM : x ≤ (M : ℚ)) : (N : ℚ) ≤ roundToUlp x ∧ roundToUlp x ≤ (M : ℚ) := by
  have hu := ulpExp_nonpos x h0 h53
  obtain ⟨k, hk⟩ : ∃ k : ℕ, ulpExp x = -(k : ℤ) := ⟨(-ulpExp x).toNat, by omega⟩
  have hpos := two_zpow_pos (ulpExp x)
  have hinv : (2 : ℚ) ^ ulpExp x * 2 ^ k = 1 := by
    rw [hk, zpow_neg, zpow_natCast]
    exact inv_mul_cancel₀ (pow_ne_zero _ (by norm_num))
  have hdiv : ∀ a : ℚ, a / 2 ^ ulpExp x = a * 2 ^ k := by
    intro a
    rw [div_eq_iff hpos.ne', mul_assoc, mul_comm ((2 : ℚ) ^ k), hinv, mul_one]
  have h2k : (0 : ℚ) < 2 ^ k := pow_pos (by norm_num) k
  have hlo : (N * 2 ^ k : Int) ≤ roundHalfEven (x / 2 ^ ulpExp x) := by
    apply roundHalfEven_ge
    rw [hdiv]
    push_cast
    exact mul_le_mul_of_nonneg_right hN h2k.le
  have hhi : roundHalfEven (x / 2 ^ ulpExp x) ≤ (M * 2 ^ k : Int) := by
    apply roundHalfEven_le
    rw [hdiv]
    push_cast
    exact mul_le_mul_of_nonneg_right hM h2k.le
  have hlo' : ((N * 2 ^ k : Int) : ℚ) ≤ (roundHalfEven (x / 2 ^ ulpExp x) : ℚ) := by
    exact_mod_cast hlo
  have hhi' : (roundHalfEven (x / 2 ^ ulpExp x) : ℚ) ≤ ((M * 2 ^ k : Int) : ℚ) := by
    exact_mod_cast hhi
  push_cast at hlo' hhi'
  unfold roundToUlp
  constructor
  · calc (N : ℚ) = N * 2 ^ k * 2 ^ ulpExp x := by
          rw [mul_assoc, mul_comm ((2 : ℚ) ^ k), hinv, mul_one]
      _ ≤ _ := mul_le_mul_of_nonneg_right hlo' hpos.le
  · calc _ ≤ (M : ℚ) * 2 ^ k * 2 ^ ulpExp x := mul_le_mul_of_nonneg_right hhi' hpos.le
      _ = M := by rw [mul_assoc, mul_comm ((2 : ℚ) ^ k), hinv, mul_one]

theorem round64_between (x r : ℚ) (N M : Int) (h53 : |x| < 2 ^ 53) (hN : (N : ℚ) ≤ x)
    (hM : x ≤ (M : ℚ)) (h : round64 x = some r) : (N : ℚ) ≤ r ∧ r ≤ (M : ℚ) := by
  rcases round64_some x r h with ⟨h0, hr⟩ | ⟨h0, hr⟩
  · rw [hr]; rw [h0] at hN hM; exact ⟨hN, hM⟩
  · rw [hr]; exact roundToUlp_between x N M h0 h53 hN hM

/-- Below `2 ^ 53` in absolute value the rounding is finite. -/
theorem round64_isSome (x : ℚ) (h53 : |x| < 2 ^ 53) : ∃ r, round64 x = some r := by
  by_cases h0 : x = 0
  · exact ⟨0, by unfold round64; rw [if_pos h0]⟩
  · refine ⟨roundToUlp x, ?_⟩
    unfold round64
    rw [if_neg h0, if_pos]
    have hN : ((-(2 ^ 53) : Int) : ℚ) ≤ x := by
      push_cast; exact (abs_lt.mp h53).1.le
    have hM : x ≤ ((2 ^ 53 : Int) : ℚ) := by
      push_cast; exact (abs_lt.mp h53).2.le
    obtain ⟨h1, h2⟩ := roundToUlp_between x _ _ h0 h53 hN hM
    push_cast at h1 h2
    rw [abs_lt]
    constructor
    · calc (-(2 : ℚ) ^ 1024) < -(2 ^ 53) := by norm_num
        _ ≤ _ := h1
    · calc roundToUlp x ≤ 2 ^ 53 := h2
        _ < 2 ^ 1024 := by norm_num

/-- An integer below `2 ^ 53` in absolute value is its own rounding. -/
theorem round64_intCast (n : Int) (h53 : |(n : ℚ)| < 2 ^ 53) :
    round64 (n : ℚ) = some (n : ℚ) := by
  obtain ⟨r, h⟩ := round64_isSome (n : ℚ) h53
  obtain ⟨h1, h2⟩ := round64_between n r n n h53 le_rfl le_rfl h
  rw [h, le_antisymm h2 h1]

/-! ## The conversion to `int` and `daysLeft` -/

theorem integerPart_eq_floor {x : ℚ} (hx : 0 ≤ x) : integerPart x = ⌊x⌋ := by
  unfold integerPart
  rw [Int.tdiv_eq_ediv (Rat.num_nonneg.mpr hx) (Int.ofNat_nonneg _), Rat.floor_def]

theorem integerPart_eq_ceil {x : ℚ} (hx : x ≤ 0) : integerPart x = ⌈x⌉ := by
  have hn : 0 ≤ -x.num := by
    have := Rat.num_nonpos.mpr hx
    omega
  have h1 : integerPart x = -((-x.num) / (x.den : Int)) := by
    unfold integerPart
    rw [← Int.tdiv_eq_ediv hn (Int.ofNat_nonneg _), Int.neg_tdiv, neg_neg]
  have h2 : ⌊-x⌋ = (-x.num) / (x.den : Int) := by
    rw [Rat.floor_def, Rat.neg_num, Rat.neg_den]
  rw [h1, ← h2, ← Int.ceil_neg, neg_neg]

theorem toInt_of_nonneg {q : ℚ} (h0 : 0 ≤ q) (hfit : q < 2 ^ 63) : toInt q = some ⌊q⌋ := by
  unfold toInt
  rw [integerPart_eq_floor h0]
  have h1 : (0 : Int) ≤ ⌊q⌋ := Int.floor_nonneg.mpr h0
  have h2 : ⌊q⌋ < 2 ^ 63 := by
    have : (⌊q⌋ : ℚ) < ((2 ^ 63 : Int) : ℚ) := by
      push_cast
      exact lt_of_le_of_lt (Int.floor_le q) hfit
    exact_mod_cast this
  rw [if_pos ⟨by omega, h2⟩]

theorem toInt_of_nonpos {q : ℚ} (h0 : q ≤ 0) (hfit : -2 ^ 63 ≤ q) : toInt q = some ⌈q⌉ := by
  unfold toInt
  rw [integerPart_eq_ceil h0]
  have h1 : ⌈q⌉ ≤ (0 : Int) := Int.ceil_le.mpr (by simpa using h0)
  have h2 : -2 ^ 63 ≤ ⌈q⌉ := by
    have : ((-2 ^ 63 : Int) : ℚ) ≤ (⌈q⌉ : ℚ) := by
      push_cast
      exact le_trans hfit (Int.le_ceil q)
    exact_mod_cast this
  rw [if_pos ⟨h2, by omega⟩]

theorem daysLeft_of_quotient (conv : Float64 → Float64 → Int) (balance cost : Float64)
    (q : ℚ) (d : Int) (hq : balance.quotient cost = some q) (hd : toInt q = some d) :
    daysLeft conv balance cost = d := by
  unfold daysLeft
  rw [hq, Option.some_bind, hd]

theorem daysLeft_of_none (conv : Float64 → Float64 → Int) (balance cost : Float64)
    (h : (balance.quotient cost).bind toInt = none) :
    daysLeft conv balance cost = conv balance cost := by
  unfold daysLeft
  rw [h]

theorem quotient_finite (x y : ℚ) (hy : y ≠ 0) :
    (Float64.finite x).quotient (.finite y) = round64 (x / y) := by
  simp only [Float64.quotient]
  rw [if_neg hy]

/-- A quotient that is an integer below `2 ^ 53` in absolute value is exact. -/
theorem quotient_intCast (x y : ℚ) (n : Int) (hy : y ≠ 0) (h : x / y = n)
    (h53 : |(n : ℚ)| < 2 ^ 53) : (Float64.finite x).quotient (.finite y) = some (n : ℚ) := by
  rw [quotient_finite x y hy, h, round64_intCast n h53]

theorem quotient_nonneg (money cost : Float64) (q : ℚ) (hMoney : money.isNonneg)
    (hCost : cost.isPos) (hq : money.quotient cost = some q) : 0 ≤ q := by
  cases money with
  | nan => exact absurd hMoney (by simp [Float64.isNonneg])
  | inf neg => cases cost <;> simp [Float64.quotient] at hq
  | finite x =>
    cases cost with
    | nan => exact absurd hCost (by simp [Float64.isPos])
    | inf neg =>
      simp only [Float64.quotient, Option.some.injEq] at hq
      exact hq ▸ le_refl _
    | finite y =>
      have hx : 0 ≤ x := hMoney
      have hy : 0 < y := hCost
      rw [quotient_finite x y hy.ne'] at hq
      exact round64_nonneg _ q (div_nonneg hx hy.le) hq

theorem quotient_nonpos (money cost : Float64) (q : ℚ) (hMoney : money.isNonneg)
    (hCost : cost.isNonpos) (hq : money.quotient cost = some q) : q ≤ 0 := by
  cases money with
  | nan => exact absurd hMoney (by simp [Float64.isNonneg])
  | inf neg => cases cost <;> simp [Float64.quotient] at hq
  | finite x =>
    cases cost with
    | nan => exact absurd hCost (by simp [Float64.isNonpos])
    | inf neg =>
      simp only [Float64.quotient, Option.some.injEq] at hq
      exact hq ▸ le_refl _
    | finite y =>
      have hx : 0 ≤ x := hMoney
      have hy : y ≤ 0 := hCost
      by_cases h0 : y = 0
      · simp [Float64.quotient, h0] at hq
      · rw [quotient_finite x y h0] at hq
        exact round64_nonpos _ q (div_nonpos_of_nonneg_of_nonpos hx hy) hq

/-- The quotient 49 / 50 in binary64. -/
theorem quotient_49_50 :
    (Float64.finite 49).quotient (.finite 50) = some (2206763817411543 / 2 ^ 51) := by
  rw [quotient_finite 49 50 (by norm_num),
    round64_eval (49 / 50) (-1) 8827055269646172 (by norm_num) (by norm_num) (by norm_num)
      (by norm_num [abs_lt]) (by norm_num [abs_lt])]
  norm_num

theorem daysLeft_49_50 (conv : Float64 → Float64 → Int) :
    daysLeft conv (.finite 49) (.finite 50) = 0 := by
  refine daysLeft_of_quotient conv _ _ _ 0 quotient_49_50 ?_
  rw [toInt_of_nonneg (by norm_num) (by norm_num)]
  exact congrArg some (Int.floor_eq_iff.mpr ⟨by norm_num, by norm_num⟩)

/-- The quotient of the `float64` numbers 2.55 and 0.85 is exactly 3 in binary64, although the
numbers themselves have a quotient below 3. -/
theorem quotient_2_55_0_85 : f2_55.quotient f0_85 = some 3 := by
  unfold f2_55 f0_85
  rw [quotient_finite _ _ (by norm_num),
    round64_eval ((2871044762448691 / 2 ^ 50) / (7656119366529843 / 2 ^ 53)) 1
      6755399441055744 (by norm_num) (by norm_num) (by norm_num)
      (by norm_num [abs_lt]) (by norm_num [abs_lt])]
  norm_num

/-- The quotient of the `float64` numbers 2.55 and -0.85 is exactly -3 in binary64. -/
theorem quotient_2_55_neg_0_85 : f2_55.quotient fNeg0_85 = some (-3) := by
  unfold f2_55 fNeg0_85
  have hneg : (2871044762448691 / 2 ^ 50 : ℚ) / (-(7656119366529843 / 2 ^ 53)) < 0 := by
    norm_num
  rw [quotient_finite _ _ (by norm_num),
    round64_eval_abs ((2871044762448691 / 2 ^ 50) / (-(7656119366529843 / 2 ^ 53))) 1
      (-6755399441055744) (by rw [abs_of_neg hneg]; norm_num)
      (by rw [abs_of_neg hneg]; norm_num) (by norm_num)
      (by norm_num [abs_lt]) (by norm_num [abs_lt])]
  norm_num

/-- The quotient 10^19 / 1 is exact in binary64 and beyond the range of `int`. -/
theorem quotient_1e19 :
    (Float64.finite (10 ^ 19)).quotient (.finite 1) = some (10 ^ 19) ∧
    toInt (10 ^ 19) = none := by
  constructor
  · rw [quotient_finite _ _ (by norm_num),
      round64_eval (10 ^ 19 / 1) 63 4882812500000000 (by norm_num) (by norm_num) (by norm_num)
        (by norm_num [abs_lt]) (by norm_num [abs_lt])]
    norm_num
  · unfold toInt
    rw [integerPart_eq_floor (by norm_num)]
    have : ⌊((10 : ℚ) ^ 19)⌋ = 10 ^ 19 := by
      have h := Int.floor_intCast (α := ℚ) (10 ^ 19)
      push_cast at h
      exact h
    rw [this, if_neg]
    norm_num

/-! ## The balance tiers -/

theorem urgency_urgent_iff (d : Int) : urgency d = urgentLabel ↔ d ≤ 1 := by
  unfold urgency urgentLabel
  split_ifs with h1 h3
  · simp [h1]
  · constructor
    · intro h; exact absurd h (by decide)
    · intro h; omega
  · constructor
    · intro h; exact absurd h (by decide)
    · intro h; omega

theorem urgency_warning_iff (d : Int) : urgency d = warningLabel ↔ d = 2 ∨ d = 3 := by
  unfold urgency warningLabel
  split_ifs with h1 h3
  · constructor
    · intro h; exact absurd h (by decide)
    · intro h; omega
  · constructor
    · intro _; omega
    · intro _; rfl
  · constructor
    · intro h; exact absurd h (by decide)
    · intro h; omega

theorem urgency_healthy_iff (d : Int) : urgency d = healthyLabel ↔ d > 3 := by
  unfold urgency healthyLabel
  split_ifs with h1 h3
  · constructor
    · intro h; exact absurd h (by decide)
    · intro h; omega
  · constructor
    · intro h; exact absurd h (by decide)
    · intro h; omega
  · constructor
    · intro _; omega
    · intro _; rfl

theorem printBalance_template (conv : Float64 → Float64 → Int) (balance : Float64)
    (config : Config) (now : Clock) :
    (printBalance conv balance config now).template =
      if daysLeft conv balance config.Cost > 3 then config.Templates.HighBalance
      else config.Templates.LowBalance := by
  unfold printBalance
  simp only []
  split_ifs <;> rfl

theorem printBalance_printed (conv : Float64 → Float64 → Int) (balance : Float64)
    (config : Config) (now : Clock) :
    (printBalance conv balance config now).printed = balance := by
  unfold printBalance
  simp only []
  split_ifs <;> rfl

/-- The calls of `SendTelegramMessage` of one run: the same message to every configured chat
when `daysLeft ≤ 3` at notification time, none otherwise. -/
theorem printBalance_sends_eq (conv : Float64 → Float64 → Int) (balance : Float64)
    (config : Config) (now : Clock) :
    (printBalance conv balance config now).sends =
      if daysLeft conv balance config.Cost ≤ 3 ∧ config.IsNotifyTime now = true then
        config.Notify.TelegramChat.map fun chat =>
          { token := config.Notify.TelegramToken, chatID := chat,
            message :=
              { urgency := urgency (daysLeft conv balance config.Cost),
                currentBalance := balance,
                daysLeft := daysLeft conv balance config.Cost,
                balance := balance, cost := config.Cost,
                daysLeftAgain := daysLeft conv balance config.Cost },
            parseMode := "" }
      else [] := by
  unfold printBalance
  simp only []
  by_cases h3 : daysLeft conv balance config.Cost > 3
  · have h3' : ¬ daysLeft conv balance config.Cost ≤ 3 := by omega
    simp [h3, h3']
  · have h3' : daysLeft conv balance config.Cost ≤ 3 := by omega
    by_cases hg : config.IsNotifyTime now = true
    · simp [h3, h3', hg]
    · simp [h3, hg]

/-- C6 as stated fails: with the balance 10^19 and the daily cost 1 the quotient is 10^19, far
above 3, but `int` cannot hold it; `daysLeft` is what the implementation's conversion gives,
on amd64 the least 64-bit integer, so the run is classified Urgent and prints the low-balance
template where the claim says Healthy. -/
theorem printBalance_quotient_beyond_int :
    (Float64.finite (10 ^ 19)).quotient (sampleConfig (.finite 1) [7] 21 30).Cost
      = some (10 ^ 19) ∧
    daysLeft convAmd64 (.finite (10 ^ 19)) (sampleConfig (.finite 1) [7] 21 30).Cost
      = -9223372036854775808 ∧
    urgency (daysLeft convAmd64 (.finite (10 ^ 19)) (sampleConfig (.finite 1) [7] 21 30).Cost)
      = urgentLabel ∧
    (printBalance convAmd64 (.finite (10 ^ 19)) (sampleConfig (.finite 1) [7] 21 30)
      { Hour := 9, Minute := 0 }).template
        = (sampleConfig (.finite 1) [7] 21 30).Templates.LowBalance ∧
    (∀ conv : Float64 → Float64 → Int,
      daysLeft conv (.finite (10 ^ 19)) (.finite 1) = conv (.finite (10 ^ 19)) (.finite 1)) := by
  have hd : ∀ conv : Float64 → Float64 → Int,
      daysLeft conv (.finite (10 ^ 19)) (.finite 1) = conv (.finite (10 ^ 19)) (.finite 1) := by
    intro conv
    refine daysLeft_of_none conv _ _ ?_
    rw [quotient_1e19.1, Option.some_bind, quotient_1e19.2]
  have hd' : daysLeft convAmd64 (.finite (10 ^ 19)) (sampleConfig (.finite 1) [7] 21 30).Cost
      = -9223372036854775808 := by
    show daysLeft convAmd64 (.finite (10 ^ 19)) (.finite 1) = _
    rw [hd convAmd64]
    unfold convAmd64
    norm_num
  refine ⟨quotient_1e19.1, hd', ?_, ?_, hd⟩
  · rw [hd']; decide
  · rw [printBalance_template, hd']
    rfl

/-- C6, amended: for a balance `money ≥ 0` and a daily cost `cost > 0` whose `float64`
quotient `q` is finite and below `2 ^ 63`, `daysLeft` is `q` with its fractional part dropped,
not rounded (`daysLeft ≤ q < daysLeft + 1`); the label is Urgent iff `daysLeft ≤ 1`, Warning
iff `daysLeft` is 2 or 3, Healthy iff `daysLeft > 3`; the low-balance template is selected when
the tier is not Healthy, the high-balance template when it is.  When the exact quotient of two
finite amounts is below `2 ^ 53`, `daysLeft` is its floor or, through the rounding of the
division, one more, and it is the quotient itself when that is an integer. -/
theorem printBalance_daysLeft_tiers (conv : Float64 → Float64 → Int) (money : Float64)
    (config : Config) (now : Clock) (q : ℚ)
    (hMoney : money.isNonneg) (hCost : config.Cost.isPos)
    (hq : money.quotient config.Cost = some q) (hfit : q < 2 ^ 63) :
    daysLeft conv money config.Cost = ⌊q⌋ ∧
    0 ≤ daysLeft conv money config.Cost ∧
    (daysLeft conv money config.Cost : ℚ) ≤ q ∧
    q < (daysLeft conv money config.Cost : ℚ) + 1 ∧
    (urgency (daysLeft conv money config.Cost) = urgentLabel ↔
      daysLeft conv money config.Cost ≤ 1) ∧
    (urgency (daysLeft conv money config.Cost) = warningLabel ↔
      daysLeft conv money config.Cost = 2 ∨ daysLeft conv money config.Cost = 3) ∧
    (urgency (daysLeft conv money config.Cost) = healthyLabel ↔
      daysLeft conv money config.Cost > 3) ∧
    (urgency (daysLeft conv money config.Cost) ≠ healthyLabel →
      (printBalance conv money config now).template = config.Templates.LowBalance) ∧
    (urgency (daysLeft conv money config.Cost) = healthyLabel →
      (printBalance conv money config now).template = config.Templates.HighBalance) ∧
    (∀ x y : ℚ, money = .finite x → config.Cost = .finite y → x / y < 2 ^ 53 →
      (daysLeft conv money config.Cost = ⌊x / y⌋ ∨
        daysLeft conv money config.Cost = ⌊x / y⌋ + 1) ∧
      ∀ n : Int, x / y = n → daysLeft conv money config.Cost = n) := by
  have hq0 : 0 ≤ q := quotient_nonneg money config.Cost q hMoney hCost hq
  have hd : daysLeft conv money config.Cost = ⌊q⌋ :=
    daysLeft_of_quotient conv _ _ q _ hq (toInt_of_nonneg hq0 hfit)
  refine ⟨hd, ?_, ?_, ?_, urgency_urgent_iff _, urgency_warning_iff _, urgency_healthy_iff _,
    ?_, ?_, ?_⟩
  · rw [hd]; exact Int.floor_nonneg.mpr hq0
  · rw [hd]; exact Int.floor_le q
  · rw [hd]; exact Int.lt_floor_add_one q
  · intro h
    rw [printBalance_template, if_neg]
    intro h3
    exact h ((urgency_healthy_iff _).mpr h3)
  · intro h
    rw [printBalance_template, if_pos ((urgency_healthy_iff _).mp h)]
  · intro x y hx hy h53
    rw [hx] at hq hMoney
    rw [hy] at hq hCost
    have hx0 : 0 ≤ x := hMoney
    have hy0 : 0 < y := hCost
    rw [quotient_finite x y hy0.ne'] at hq
    have hxy : 0 ≤ x / y := div_nonneg hx0 hy0.le
    have habs : |x / y| < 2 ^ 53 := by rw [abs_of_nonneg hxy]; exact h53
    constructor
    · obtain ⟨h1, h2⟩ := round64_between (x / y) q ⌊x / y⌋ (⌊x / y⌋ + 1) habs
        (Int.floor_le _) (by push_cast; exact (Int.lt_floor_add_one _).le) hq
      rw [hd]
      by_cases he : q = ((⌊x / y⌋ + 1 : Int) : ℚ)
      · right
        rw [he]
        exact Int.floor_intCast _
      · left
        refine Int.floor_eq_iff.mpr ⟨h1, ?_⟩
        push_cast at he h2
        exact lt_of_le_of_ne h2 he
    · intro n hn
      rw [hn] at hq habs
      rw [round64_intCast n habs, Option.some.injEq] at hq
      rw [hd, ← hq]
      exact Int.floor_intCast _

/-- Witness of C6 amended: (150, 50) gives 3 days and Warning, (49, 50) gives 0 days and
Urgent, (500, 50) gives 10 days and Healthy; and the `float64` amounts 2.55 and 0.85, whose
exact quotient is below 3, give 3 days, their `float64` quotient. -/
theorem printBalance_daysLeft_tiers_witness :
    (daysLeft convAmd64 (.finite 150) (sampleConfig (.finite 50) [1] 21 30).Cost = 3 ∧
      urgency (daysLeft convAmd64 (.finite 150) (sampleConfig (.finite 50) [1] 21 30).Cost)
        = warningLabel ∧
      (printBalance convAmd64 (.finite 150) (sampleConfig (.finite 50) [1] 21 30)
        { Hour := 9, Minute := 0 }).template
          = (sampleConfig (.finite 50) [1] 21 30).Templates.LowBalance) ∧
    (daysLeft convAmd64 (.finite 49) (sampleConfig (.finite 50) [1] 21 30).Cost = 0 ∧
      urgency (daysLeft convAmd64 (.finite 49) (sampleConfig (.finite 50) [1] 21 30).Cost)
        = urgentLabel) ∧
    (daysLeft convAmd64 (.finite 500) (sampleConfig (.finite 50) [1] 21 30).Cost = 10 ∧
      urgency (daysLeft convAmd64 (.finite 500) (sampleConfig (.finite 50) [1] 21 30).Cost)
        = healthyLabel ∧
      (printBalance convAmd64 (.finite 500) (sampleConfig (.finite 50) [1] 21 30)
        { Hour := 9, Minute := 0 }).template
          = (sampleConfig (.finite 50) [1] 21 30).Templates.HighBalance) ∧
    (⌊(2871044762448691 / 2 ^ 50 : ℚ) / (7656119366529843 / 2 ^ 53)⌋ = 2 ∧
      daysLeft convAmd64 f2_55 (sampleConfig f0_85 [1] 21 30).Cost = 3) := by
  have hc : (sampleConfig (.finite 50) [1] 21 30).Cost.isPos := by
    show (0 : ℚ) < 50
    norm_num
  have h150 := printBalance_daysLeft_tiers convAmd64 (.finite 150)
    (sampleConfig (.finite 50) [1] 21 30) { Hour := 9, Minute := 0 } ((3 : Int) : ℚ)
    (by show (0 : ℚ) ≤ 150; norm_num) hc
    (quotient_intCast 150 50 3 (by norm_num) (by norm_num) (by norm_num)) (by norm_num)
  have h49 := printBalance_daysLeft_tiers convAmd64 (.finite 49)
    (sampleConfig (.finite 50) [1] 21 30) { Hour := 9, Minute := 0 } _
    (by show (0 : ℚ) ≤ 49; norm_num) hc quotient_49_50 (by norm_num)
  have h500 := printBalance_daysLeft_tiers convAmd64 (.finite 500)
    (sampleConfig (.finite 50) [1] 21 30) { Hour := 9, Minute := 0 } ((10 : Int) : ℚ)
    (by show (0 : ℚ) ≤ 500; norm_num) hc
    (quotient_intCast 500 50 10 (by norm_num) (by norm_num) (by norm_num)) (by norm_num)
  have hf := printBalance_daysLeft_tiers convAmd64 f2_55
    (sampleConfig f0_85 [1] 21 30) { Hour := 9, Minute := 0 } 3
    (by show (0 : ℚ) ≤ 2871044762448691 / 2 ^ 50; norm_num)
    (by show (0 : ℚ) < 7656119366529843 / 2 ^ 53; norm_num)
    quotient_2_55_0_85 (by norm_num)
  have d150 : daysLeft convAmd64 (.finite 150) (sampleConfig (.finite 50) [1] 21 30).Cost
      = 3 := by
    rw [h150.1]; exact Int.floor_intCast _
  have d49 : daysLeft convAmd64 (.finite 49) (sampleConfig (.finite 50) [1] 21 30).Cost
      = 0 := by
    rw [h49.1]; exact Int.floor_eq_iff.mpr ⟨by norm_num, by norm_num⟩
  have d500 : daysLeft convAmd64 (.finite 500) (sampleConfig (.finite 50) [1] 21 30).Cost
      = 10 := by
    rw [h500.1]; exact Int.floor_intCast _
  have df : daysLeft convAmd64 f2_55 (sampleConfig f0_85 [1] 21 30).Cost = 3 := by
    rw [hf.1]; exact Int.floor_eq_iff.mpr ⟨by norm_num, by norm_num⟩
  have w150 := h150.2.2.2.2.2.1.2 (Or.inr d150)
  have u49 := h49.2.2.2.2.1.2 (by rw [d49]; decide)
  have g500 := h500.2.2.2.2.2.2.1.2 (by rw [d500]; decide)
  refine ⟨⟨d150, w150, h150.2.2.2.2.2.2.2.1 ?_⟩, ⟨d49, u49⟩,
    ⟨d500, g500, h500.2.2.2.2.2.2.2.2.1 g500⟩,
    Int.floor_eq_iff.mpr ⟨by norm_num, by norm_num⟩, df⟩
  rw [w150]; decide

/-! ## Non-positive daily cost -/

/-- C8 as stated fails: with the balance 100 and the daily cost -50 `printBalance` raises no
error; it divides, gets `daysLeft = -2`, prints the low-balance template and, at notification
time, sends an alert with that figure. -/
theorem printBalance_negative_cost_example :
    daysLeft convAmd64 (.finite 100) (sampleConfig (.finite (-50)) [7] 21 30).Cost = -2 ∧
    (printBalance convAmd64 (.finite 100) (sampleConfig (.finite (-50)) [7] 21 30)
      { Hour := 21, Minute := 45 }).template =
        (sampleConfig (.finite (-50)) [7] 21 30).Templates.LowBalance ∧
    (printBalance convAmd64 (.finite 100) (sampleConfig (.finite (-50)) [7] 21 30)
      { Hour := 21, Minute := 45 }).sends.map (fun s => (s.chatID, s.message.daysLeft)) =
        [(7, -2)] := by
  have hd : daysLeft convAmd64 (.finite 100) (sampleConfig (.finite (-50)) [7] 21 30).Cost
      = -2 := by
    refine daysLeft_of_quotient convAmd64 _ _ ((-2 : Int) : ℚ) _
      (quotient_intCast 100 (-50) (-2) (by norm_num) (by norm_num) (by norm_num)) ?_
    rw [toInt_of_nonpos (by norm_num) (by norm_num)]
    exact congrArg some (Int.ceil_intCast _)
  have hg : (sampleConfig (.finite (-50)) [7] 21 30).IsNotifyTime
      { Hour := 21, Minute := 45 } = true := by
    decide
  refine ⟨hd, ?_, ?_⟩
  · rw [printBalance_template, hd]
    rfl
  · rw [printBalance_sends_eq, hd, if_pos ⟨by decide, hg⟩]
    rfl

/-- C8, amended: `printBalance` has no error path; with a daily cost `≤ 0` it still divides
and classifies.  With a zero cost the quotient is not finite and `daysLeft` is the
implementation's conversion of it.  With a balance `≥ 0` and a finite `float64` quotient `q`
not below `-2 ^ 63`, `daysLeft` is `q` truncated toward zero, which is `≤ 0`, so the label is
Urgent and the low-balance template is printed.  In every case the template is chosen by
`daysLeft > 3` and the balance printed. -/
theorem printBalance_nonpositive_cost (conv : Float64 → Float64 → Int) (money : Float64)
    (config : Config) (now : Clock) (hCost : config.Cost.isNonpos) :
    (config.Cost = .finite 0 →
      daysLeft conv money config.Cost = conv money config.Cost) ∧
    (∀ q : ℚ, money.isNonneg → money.quotient config.Cost = some q → -2 ^ 63 ≤ q →
      daysLeft conv money config.Cost = ⌈q⌉ ∧
      daysLeft conv money config.Cost ≤ 0 ∧
      urgency (daysLeft conv money config.Cost) = urgentLabel ∧
      (printBalance conv money config now).template = config.Templates.LowBalance) ∧
    (printBalance conv money config now).template =
      (if daysLeft conv money config.Cost > 3 then config.Templates.HighBalance
       else config.Templates.LowBalance) ∧
    (printBalance conv money config now).printed = money := by
  refine ⟨?_, ?_, printBalance_template _ _ _ _, printBalance_printed _ _ _ _⟩
  · intro h0
    refine daysLeft_of_none conv _ _ ?_
    rw [h0]
    cases money <;> simp [Float64.quotient]
  · intro q hm hq hfit
    have hq0 : q ≤ 0 := quotient_nonpos money config.Cost q hm hCost hq
    have hd : daysLeft conv money config.Cost = ⌈q⌉ :=
      daysLeft_of_quotient conv _ _ q _ hq (toInt_of_nonpos hq0 hfit)
    have hle : daysLeft conv money config.Cost ≤ 0 := by
      rw [hd]
      exact Int.ceil_le.mpr (by simpa using hq0)
    refine ⟨hd, hle, (urgency_urgent_iff _).mpr (by omega), ?_⟩
    rw [printBalance_template, if_neg (by omega)]

/-- Witness of C8 amended: the balance 100 with the daily cost -50 gives -2 days, and the
`float64` amounts 2.55 and -0.85, whose exact quotient is above -3, give -3 days, their
`float64` quotient. -/
theorem printBalance_nonpositive_cost_witness :
    (daysLeft convAmd64 (.finite 100) (sampleConfig (.finite (-50)) [7] 21 30).Cost = -2 ∧
      urgency (daysLeft convAmd64 (.finite 100) (sampleConfig (.finite (-50)) [7] 21 30).Cost)
        = urgentLabel ∧
      (printBalance convAmd64 (.finite 100) (sampleConfig (.finite (-50)) [7] 21 30)
        { Hour := 21, Minute := 45 }).template =
          (sampleConfig (.finite (-50)) [7] 21 30).Templates.LowBalance) ∧
    (⌈(2871044762448691 / 2 ^ 50 : ℚ) / (-(7656119366529843 / 2 ^ 53))⌉ = -2 ∧
      daysLeft convAmd64 f2_55 (sampleConfig fNeg0_85 [7] 21 30).Cost = -3) := by
  have h := (printBalance_nonpositive_cost convAmd64 (.finite 100)
    (sampleConfig (.finite (-50)) [7] 21 30) { Hour := 21, Minute := 45 }
    (by show (-50 : ℚ) ≤ 0; norm_num)).2.1 ((-2 : Int) : ℚ)
    (by show (0 : ℚ) ≤ 100; norm_num)
    (quotient_intCast 100 (-50) (-2) (by norm_num) (by norm_num) (by norm_num))
    (by norm_num)
  have hf := (printBalance_nonpositive_cost convAmd64 f2_55
    (sampleConfig fNeg0_85 [7] 21 30) { Hour := 21, Minute := 45 }
    (by show (-(7656119366529843 / 2 ^ 53) : ℚ) ≤ 0; norm_num)).2.1 (-3)
    (by show (0 : ℚ) ≤ 2871044762448691 / 2 ^ 50; norm_num)
    quotient_2_55_neg_0_85 (by norm_num)
  refine ⟨⟨?_, h.2.2.1, h.2.2.2⟩, Int.ceil_eq_iff.mpr ⟨by norm_num, by norm_num⟩, ?_⟩
  · rw [h.1]; exact Int.ceil_intCast _
  · rw [hf.1]; exact Int.ceil_eq_iff.mpr ⟨by norm_num, by norm_num⟩

/-! ## The alerts -/

/-- C9 as stated fails: at notification time with a balance of less than one day, no alert is
sent when no chat is configured, and two are sent when two chats are. -/
theorem printBalance_sends_per_chat :
    daysLeft convAmd64 (.finite 49) (sampleConfig (.finite 50) [] 21 30).Cost ≤ 3 ∧
    (sampleConfig (.finite 50) [] 21 30).IsNotifyTime { Hour := 21, Minute := 45 } = true ∧
    (printBalance convAmd64 (.finite 49) (sampleConfig (.finite 50) [] 21 30)
      { Hour := 21, Minute := 45 }).sends.length = 0 ∧
    (printBalance convAmd64 (.finite 49) (sampleConfig (.finite 50) [101, 102] 21 30)
      { Hour := 21, Minute := 45 }).sends.length = 2 := by
  have hd1 : daysLeft convAmd64 (.finite 49) (sampleConfig (.finite 50) [] 21 30).Cost = 0 :=
    daysLeft_49_50 convAmd64
  have hd2 : daysLeft convAmd64 (.finite 49)
      (sampleConfig (.finite 50) [101, 102] 21 30).Cost = 0 := daysLeft_49_50 convAmd64
  have hg1 : (sampleConfig (.finite 50) [] 21 30).IsNotifyTime
      { Hour := 21, Minute := 45 } = true := by
    decide
  have hg2 : (sampleConfig (.finite 50) [101, 102] 21 30).IsNotifyTime
      { Hour := 21, Minute := 45 } = true := by
    decide
  refine ⟨by rw [hd1]; decide, hg1, ?_, ?_⟩
  · rw [printBalance_sends_eq, hd1, if_pos ⟨by decide, hg1⟩]
    rfl
  · rw [printBalance_sends_eq, hd2, if_pos ⟨by decide, hg2⟩]
    rfl

/-- C9, amended: when the tier is not Healthy (`daysLeft ≤ 3`) and `IsNotifyTime` is true, one
run of `printBalance` sends one alert to each configured chat (none when no chat is
configured, exactly one when one is), all with the same payload: the label of the computed
tier (Urgent or Warning), the balance, `daysLeft`, and the inputs money and cost; otherwise it
sends none.  `daysLeft` is the one the run computes, whatever the conversion to `int` gives. -/
theorem printBalance_alerts (conv : Float64 → Float64 → Int) (balance : Float64)
    (config : Config) (now : Clock) :
    (printBalance conv balance config now).sends =
      (if daysLeft conv balance config.Cost ≤ 3 ∧ config.IsNotifyTime now = true then
        config.Notify.TelegramChat.map fun chat =>
          { token := config.Notify.TelegramToken, chatID := chat,
            message :=
              { urgency := urgency (daysLeft conv balance config.Cost),
                currentBalance := balance,
                daysLeft := daysLeft conv balance config.Cost,
                balance := balance, cost := config.Cost,
                daysLeftAgain := daysLeft conv balance config.Cost },
            parseMode := "" }
      else []) ∧
    (printBalance conv balance config now).sends.length =
      (if daysLeft conv balance config.Cost ≤ 3 ∧ config.IsNotifyTime now = true then
        config.Notify.TelegramChat.length
      else 0) ∧
    (daysLeft conv balance config.Cost ≤ 3 →
      urgency (daysLeft conv balance config.Cost) = urgentLabel ∨
      urgency (daysLeft conv balance config.Cost) = warningLabel) ∧
    (∀ chat, config.Notify.TelegramChat = [chat] →
      daysLeft conv balance config.Cost ≤ 3 → config.IsNotifyTime now = true →
      (printBalance conv balance config now).sends.length = 1) := by
  have hs := printBalance_sends_eq conv balance config now
  refine ⟨hs, ?_, ?_, ?_⟩
  · rw [hs]
    split_ifs
    · rw [List.length_map]
    · rfl
  · intro h3
    by_cases h1 : daysLeft conv balance config.Cost ≤ 1
    · exact Or.inl ((urgency_urgent_iff _).mpr h1)
    · exact Or.inr ((urgency_warning_iff _).mpr (by omega))
  · intro chat hc h3 hg
    rw [hs, if_pos ⟨h3, hg⟩, List.length_map, hc]
    rfl

end Bauble
